import Mathlib

/-
  Verification of the collaboration client of this repository.

  Embedded source files:
  - client/app/lib/automerge.ts   (DocumentManager: CRDT-style document)
  - client/app/lib/protocol.ts    (SyncProtocol: binary wire codec)
  - the zustand collaboration store (chat ring, remote cursor table)
  - client/app/hooks/useCollaboration.ts (broadcast handlers)

  Modelling conventions:
  - TypeScript strings are lists of Unicode scalar values (`List Char`);
    the UTF-8 byte transport (`TextEncoder`/`TextDecoder`) is bijective on
    them and is left implicit where a string is handed to it whole.
  - JavaScript numbers used as integers/timestamps are `Nat`; `Date.now()`
    becomes an explicit `now : Nat` argument threaded through the stateful
    methods.
  - JavaScript objects used as string-keyed records (`Record<string, T>`)
    are association lists in key insertion order, which is the order
    `JSON.stringify` serialises and the spread operator preserves.
  - Wire bytes are `List Nat` with values < 256.
-/

set_option maxRecDepth 8000

/-- TypeScript string, as its list of Unicode scalar values. -/
abbrev Str := List Char

/-- Property access `m[k]` on a JavaScript object modelled as an association
list (first matching key; keys are unique in every object the code builds). -/
def getKey {α : Type} (m : List (Str × α)) (k : Str) : Option α :=
  match m with
  | [] => none
  | (k', v) :: rest => if k' = k then some v else getKey rest k

@[simp] theorem getKey_nil {α : Type} (k : Str) : getKey ([] : List (Str × α)) k = none := rfl

@[simp] theorem getKey_cons {α : Type} (k' : Str) (v : α) (rest : List (Str × α)) (k : Str) :
    getKey ((k', v) :: rest) k = if k' = k then some v else getKey rest k := rfl

/-- `delete obj[k]`: removes the property, preserving the order of the
remaining keys. -/
def delKey {α : Type} (m : List (Str × α)) (k : Str) : List (Str × α) :=
  m.filter (fun e => e.1 ≠ k)

/-- The object spread `{...base, ...other}`: keys of `base` keep their
positions (values overridden by `other` where both have the key), then the
keys only in `other` follow in `other`'s order. -/
def spreadUnion {α : Type} (base other : List (Str × α)) : List (Str × α) :=
  (base.map (fun e =>
    match getKey other e.1 with
    | some v => (e.1, v)
    | none => e)) ++
  other.filter (fun e => (getKey base e.1).isNone)

/-- `Map.set k v` on a JavaScript `Map`: replaces the value in place when the
key is present, otherwise appends the new entry. -/
def mapSet {α : Type} (m : List (Str × α)) (k : Str) (v : α) : List (Str × α) :=
  if (getKey m k).isSome then
    m.map (fun e => if e.1 = k then (k, v) else e)
  else
    m ++ [(k, v)]

theorem getKey_append {α : Type} (m₁ m₂ : List (Str × α)) (k : Str) :
    getKey (m₁ ++ m₂) k =
      match getKey m₁ k with
      | some v => some v
      | none => getKey m₂ k := by
  induction m₁ with
  | nil => simp
  | cons e rest ih =>
    obtain ⟨k', v⟩ := e
    by_cases h : k' = k <;> simp [h, ih]

theorem getKey_map_override {α : Type} (base other : List (Str × α)) (k : Str) :
    getKey (base.map (fun e =>
      match getKey other e.1 with
      | some v => (e.1, v)
      | none => e)) k =
      match getKey base k with
      | some v => match getKey other k with
        | some w => some w
        | none => some v
      | none => none := by
  induction base with
  | nil => simp
  | cons e rest ih =>
    obtain ⟨k', v⟩ := e
    by_cases h : k' = k
    · subst h
      cases ho : getKey other k' <;> simp [ho]
    · cases ho : getKey other k' <;> simp [ho, h, ih]

theorem getKey_filter_only {α : Type} (base other : List (Str × α)) (k : Str) :
    getKey (other.filter (fun e => (getKey base e.1).isNone)) k =
      if (getKey base k).isSome then none else getKey other k := by
  induction other with
  | nil => simp
  | cons e rest ih =>
    obtain ⟨k', v⟩ := e
    by_cases h : k' = k
    · subst h
      by_cases hb : (getKey base k').isSome
      · have : (getKey base k').isNone = false := by
          simp [Option.isNone_iff_eq_none]
          exact Option.isSome_iff_exists.mp hb |>.elim (fun w hw => by simp [hw])
        simp [List.filter_cons, this, hb, ih]
      · have : (getKey base k').isNone = true := by
          simpa [Option.isNone_iff_eq_none, Option.not_isSome_iff_eq_none] using hb
        simp [List.filter_cons, this, hb]
    · by_cases hb : (getKey base k').isNone
      · simp [List.filter_cons, hb, h, ih]
      · simp [List.filter_cons, hb, h, ih]

/-- Lookup in `{...base, ...other}`: the later spread wins on common keys. -/
theorem getKey_spreadUnion {α : Type} (base other : List (Str × α)) (k : Str) :
    getKey (spreadUnion base other) k =
      match getKey other k with
      | some v => some v
      | none => getKey base k := by
  rw [spreadUnion, getKey_append, getKey_map_override, getKey_filter_only]
  cases hb : getKey base k <;> cases ho : getKey other k <;> simp [hb, ho]

theorem getKey_map_replace {α : Type} (m : List (Str × α)) (k k' : Str) (v : α) :
    getKey (m.map (fun e => if e.1 = k then (k, v) else e)) k' =
      (getKey m k').map (fun w => if k' = k then v else w) := by
  induction m with
  | nil => simp
  | cons e rest ih =>
    obtain ⟨ke, ve⟩ := e
    by_cases hek : ke = k
    · subst hek
      by_cases hkk : ke = k'
      · subst hkk
        simp
      · simp [hkk, Ne.symm hkk, ih]
    · by_cases hkk : ke = k'
      · subst hkk
        simp [hek, ih]
      · simp [hek, hkk, ih]

/-- Lookup after `Map.set`. -/
theorem getKey_mapSet {α : Type} (m : List (Str × α)) (k k' : Str) (v : α) :
    getKey (mapSet m k v) k' = if k = k' then some v else getKey m k' := by
  by_cases hmem : (getKey m k).isSome
  · rw [mapSet, if_pos hmem, getKey_map_replace]
    by_cases hkk : k = k'
    · subst hkk
      obtain ⟨w, hw⟩ := Option.isSome_iff_exists.mp hmem
      simp [hw]
    · cases hm : getKey m k' <;> simp [hm, hkk, Ne.symm hkk]
  · rw [mapSet, if_neg hmem, getKey_append]
    by_cases hkk : k = k'
    · subst hkk
      cases hm : getKey m k with
      | none => simp
      | some w => simp [hm] at hmem
    · cases hm : getKey m k' <;> simp [hkk]

/-
  ===========================================================================
  Document model — client/app/lib/automerge.ts, class DocumentManager.

  `this.doc` is the state; each method becomes a pure function
  `ProjectDocument → ... → ProjectDocument`. `change` deep-copies the
  document via `JSON.parse(JSON.stringify(...))` and applies the mutator;
  on a value model the copy is the identity, so `change` is just the
  mutator itself.
  ===========================================================================
-/

/-- File entry in the CRDT document (interface CrdtFile). -/
structure CrdtFile where
  path : Str
  content : Str
  language : Str
  created_at : Nat
  modified_at : Nat
deriving DecidableEq, Repr

/-- Folder entry in the CRDT document (interface CrdtFolder). -/
structure CrdtFolder where
  path : Str
  name : Str
  children : List Str
deriving DecidableEq, Repr

/-- Root document schema (interface ProjectDocument). The `automerge` field
is the `__automerge` marker property attached by the manager. -/
structure ProjectDocument where
  files : List (Str × CrdtFile)
  folders : List (Str × CrdtFolder)
  root_path : Str
  name : Str
  created_at : Nat
  modified_at : Nat
  version : Nat
  automerge : Bool
deriving DecidableEq, Repr

namespace DocumentManager

/-- `createEmptyDocument()`. -/
def createEmptyDocument (now : Nat) : ProjectDocument :=
  { files := [], folders := [], root_path := [], name := [],
    created_at := now, modified_at := now, version := 1, automerge := true }

/-- `merge(other)`: `{...files, ...other.files}`, `{...folders,
...other.folders}`, `modified_at = Date.now()`; the remaining fields of
`this.doc` (root_path, name, created_at, version, __automerge) are kept. -/
def merge (doc other : ProjectDocument) (now : Nat) : ProjectDocument :=
  { doc with
    files := spreadUnion doc.files other.files,
    folders := spreadUnion doc.folders other.folders,
    modified_at := now }

/-- `setFile(path, content, language)`. -/
def setFile (doc : ProjectDocument) (now : Nat) (path content language : Str) :
    ProjectDocument :=
  match getKey doc.files path with
  | some f =>
    { doc with
      files := doc.files.map (fun e =>
        if e.1 = path then
          (e.1, { f with content := content, language := language, modified_at := now })
        else e),
      modified_at := now }
  | none =>
    { doc with
      files := doc.files ++
        [(path, { path := path, content := content, language := language,
                  created_at := now, modified_at := now })],
      modified_at := now }

/-- `deleteFile(path)`. -/
def deleteFile (doc : ProjectDocument) (now : Nat) (path : Str) : ProjectDocument :=
  { doc with files := delKey doc.files path, modified_at := now }

/-- `getFileContent(path)`. -/
def getFileContent (doc : ProjectDocument) (path : Str) : Option Str :=
  match getKey doc.files path with
  | some f => some f.content
  | none => none

/-- `spliceText(path, startIndex, deleteCount, insertText)`: when the file
exists, `content = content.slice(0, startIndex) + insertText +
content.slice(startIndex + deleteCount)`; otherwise the mutator body is
skipped and the document is unchanged. -/
def spliceText (doc : ProjectDocument) (now : Nat) (path : Str)
    (startIndex deleteCount : Nat) (insertText : Str) : ProjectDocument :=
  match getKey doc.files path with
  | some f =>
    { doc with
      files := doc.files.map (fun e =>
        if e.1 = path then
          (e.1, { f with
            content := f.content.take startIndex ++ insertText ++
              f.content.drop (startIndex + deleteCount),
            modified_at := now })
        else e),
      modified_at := now }
  | none => doc

/-- `insertText(path, index, text)` delegates to `spliceText`. -/
def insertText (doc : ProjectDocument) (now : Nat) (path : Str) (index : Nat)
    (text : Str) : ProjectDocument :=
  spliceText doc now path index 0 text

/-- `deleteText(path, index, count)` delegates to `spliceText`. -/
def deleteText (doc : ProjectDocument) (now : Nat) (path : Str) (index count : Nat) :
    ProjectDocument :=
  spliceText doc now path index count []

/-- `replaceText(path, startIndex, deleteCount, insertText)` delegates to
`spliceText`. -/
def replaceText (doc : ProjectDocument) (now : Nat) (path : Str)
    (startIndex deleteCount : Nat) (insertText : Str) : ProjectDocument :=
  spliceText doc now path startIndex deleteCount insertText

/-- `createFolder(path, name)`: only acts when the folder is absent. -/
def createFolder (doc : ProjectDocument) (now : Nat) (path name : Str) :
    ProjectDocument :=
  match getKey doc.folders path with
  | some _ => doc
  | none =>
    { doc with
      folders := doc.folders ++ [(path, { path := path, name := name, children := [] })],
      modified_at := now }

/-- `deleteFolder(path)`: `delete doc.folders[path]` and bump `modified_at`;
nothing else is touched. -/
def deleteFolder (doc : ProjectDocument) (now : Nat) (path : Str) : ProjectDocument :=
  { doc with folders := delKey doc.folders path, modified_at := now }

/-- `addChildToFolder(folderPath, childPath)`. -/
def addChildToFolder (doc : ProjectDocument) (now : Nat) (folderPath childPath : Str) :
    ProjectDocument :=
  match getKey doc.folders folderPath with
  | some folder =>
    if childPath ∈ folder.children then doc
    else
      { doc with
        folders := doc.folders.map (fun e =>
          if e.1 = folderPath then
            (e.1, { folder with children := folder.children ++ [childPath] })
          else e),
        modified_at := now }
  | none => doc

/-- `removeChildFromFolder(folderPath, childPath)`: `splice(indexOf, 1)`
removes the first occurrence. -/
def removeChildFromFolder (doc : ProjectDocument) (now : Nat)
    (folderPath childPath : Str) : ProjectDocument :=
  match getKey doc.folders folderPath with
  | some folder =>
    if childPath ∈ folder.children then
      { doc with
        folders := doc.folders.map (fun e =>
          if e.1 = folderPath then
            (e.1, { folder with children := folder.children.erase childPath })
          else e),
        modified_at := now }
    else doc
  | none => doc

end DocumentManager

/-
  ===========================================================================
  Collaboration store — the zustand store (chat ring, remote cursor table)
  and the broadcast handlers of client/app/hooks/useCollaboration.ts.
  ===========================================================================
-/

namespace Store

/-- interface ChatMessage of the store. -/
structure ChatMessage where
  id : Str
  userId : Str
  userName : Str
  message : Str
  timestamp : Nat
deriving DecidableEq, Repr

/-- interface CursorPosition of the store. -/
structure CursorPosition where
  fileId : Str
  line : Nat
  column : Nat
deriving DecidableEq, Repr

/-- `Array.prototype.slice(-n)`: the last `min n (length)` elements. -/
def lastN {α : Type} (n : Nat) (l : List α) : List α :=
  l.drop (l.length - n)

/-- `addChatMessage`: `[...state.chatMessages, message].slice(-100)`. -/
def addChatMessage (state : List ChatMessage) (message : ChatMessage) :
    List ChatMessage :=
  lastN 100 (state ++ [message])

/-- `updateCursor(userId, position)`: `Map.set` on `remoteCursors`. -/
def updateCursor (cursors : List (Str × CursorPosition)) (userId : Str)
    (position : CursorPosition) : List (Str × CursorPosition) :=
  mapSet cursors userId position

/-- The fields of a server `CursorBroadcast` used by the client handler. -/
structure CursorBroadcast where
  peer_id : Str
  peer_name : Str
  peer_color : Str
  file_path : Str
  line : Nat
  column : Nat
deriving DecidableEq, Repr

/-- `handleCursorBroadcast` of useCollaboration.ts, restricted to its effect
on the `remoteCursors` table: broadcasts about the connection's own peer id
are skipped, every other broadcast stores the cursor under the sender's peer
id alone. -/
def handleCursorBroadcast (ownPeerId : Option Str)
    (cursors : List (Str × CursorPosition)) (msg : CursorBroadcast) :
    List (Str × CursorPosition) :=
  if some msg.peer_id = ownPeerId then cursors
  else updateCursor cursors msg.peer_id
    { fileId := msg.file_path, line := msg.line, column := msg.column }

end Store

theorem lastN_eq_reverse_take {α : Type} (n : Nat) (l : List α) :
    Store.lastN n l = (l.reverse.take n).reverse := by
  have h : (List.take n l.reverse).reverse =
      List.drop (l.reverse.length - n) l.reverse.reverse := List.reverse_take
  rw [Store.lastN]
  simp only [List.reverse_reverse, List.length_reverse] at h
  exact h.symm

theorem lastN_length_le {α : Type} (n : Nat) (l : List α) :
    (Store.lastN n l).length ≤ n := by
  rw [Store.lastN, List.length_drop]
  omega

theorem lastN_lastN_append {α : Type} (n : Nat) (s t : List α) :
    Store.lastN n (Store.lastN n s ++ t) = Store.lastN n (s ++ t) := by
  rw [lastN_eq_reverse_take, lastN_eq_reverse_take, lastN_eq_reverse_take]
  rw [List.reverse_append, List.reverse_append, List.reverse_reverse]
  rw [List.take_append_eq_append_take, List.take_append_eq_append_take]
  rw [List.take_take]
  congr 2
  rw [Nat.min_eq_left (Nat.sub_le n t.reverse.length)]

/-- The chat ring after any sequence of appends holds the last 100 appended
messages, in arrival order. -/
theorem addChatMessage_foldl (init : List Store.ChatMessage)
    (ms : List Store.ChatMessage) (hinit : init.length ≤ 100) :
    List.foldl Store.addChatMessage init ms = Store.lastN 100 (init ++ ms) := by
  induction ms generalizing init with
  | nil =>
    rw [List.append_nil, List.foldl_nil, Store.lastN, Nat.sub_eq_zero_of_le hinit,
      List.drop_zero]
  | cons m rest ih =>
    rw [List.foldl_cons]
    rw [ih (Store.addChatMessage init m) (lastN_length_le 100 (init ++ [m]))]
    rw [Store.addChatMessage, lastN_lastN_append]
    simp

theorem getKey_eq_none_iff {α : Type} (m : List (Str × α)) (k : Str) :
    getKey m k = none ↔ ∀ e ∈ m, e.1 ≠ k := by
  induction m with
  | nil => simp
  | cons e rest ih =>
    obtain ⟨k', v⟩ := e
    by_cases h : k' = k
    · subst h
      constructor
      · intro hc
        rw [getKey_cons, if_pos rfl] at hc
        exact Option.noConfusion hc
      · intro hall
        exact absurd rfl (hall (k', v) (List.mem_cons_self _ _))
    · constructor
      · intro hc
        rw [getKey_cons, if_neg h] at hc
        intro e he
        rcases List.mem_cons.mp he with he1 | he2
        · rw [he1]; exact h
        · exact (ih.mp hc) e he2
      · intro hall
        rw [getKey_cons, if_neg h]
        exact ih.mpr (fun e he => hall e (List.mem_cons_of_mem _ he))

/-- `Map.set` preserves distinctness of keys. -/
theorem mapSet_nodup_keys {α : Type} (m : List (Str × α)) (k : Str) (v : α)
    (h : (m.map Prod.fst).Nodup) : ((mapSet m k v).map Prod.fst).Nodup := by
  by_cases hmem : (getKey m k).isSome
  · rw [mapSet, if_pos hmem]
    have : (m.map (fun e => if e.1 = k then (k, v) else e)).map Prod.fst = m.map Prod.fst := by
      rw [List.map_map]
      apply List.map_congr_left
      intro e _
      by_cases he : e.1 = k <;> simp [he]
    rw [this]
    exact h
  · rw [mapSet, if_neg hmem]
    rw [List.map_append]
    simp only [List.map_cons, List.map_nil]
    rw [List.nodup_append]
    refine ⟨h, List.nodup_singleton k, ?_⟩
    intro a ha
    simp only [List.mem_singleton]
    intro hak
    subst hak
    obtain ⟨e, he, hek⟩ := List.mem_map.mp ha
    have := (getKey_eq_none_iff m a).mp (Option.not_isSome_iff_eq_none.mp hmem) e he
    exact this hek

/-
  ===========================================================================
  JSON layer — models `JSON.stringify` / `JSON.parse` as used by
  `saveToBinary`, `loadFromBinary` and `receiveSyncMessage` in automerge.ts.

  `JSON.stringify` serialises object keys in insertion order; for the fixed
  ProjectDocument schema this is the field order of `createEmptyDocument`
  (files, folders, root_path, name, created_at, modified_at, version,
  __automerge) and, inside each file/folder value, the creation order of
  `setFile` / `createFolder`. Strings are quoted with the standard JSON
  escapes; integer `Number`s print in decimal.

  `JSON.parse` is the ECMAScript parser followed by the unchecked TypeScript
  cast to ProjectDocument; it is modelled here specialised to the schema the
  document code reads back, agreeing with the builtin on every string
  `JSON.stringify` produces for a schema value (the only strings the
  document code ever feeds back into it).
  ===========================================================================
-/

def qmark : Char := Char.ofNat 34

def bslash : Char := Char.ofNat 92

def lbrace : Char := Char.ofNat 123

def rbrace : Char := Char.ofNat 125

/-- Lowercase hexadecimal digit, as `Number.prototype.toString(16)`. -/
def hexDigit (n : Nat) : Char :=
  if n < 10 then Char.ofNat (48 + n) else Char.ofNat (87 + n)

/-- The JSON escape of one character (ECMA-262 QuoteJSONString). -/
def escChar (c : Char) : List Char :=
  if c = qmark then [bslash, qmark]
  else if c = bslash then [bslash, bslash]
  else if c = Char.ofNat 8 then [bslash, 'b']
  else if c = Char.ofNat 9 then [bslash, 't']
  else if c = Char.ofNat 10 then [bslash, 'n']
  else if c = Char.ofNat 12 then [bslash, 'f']
  else if c = Char.ofNat 13 then [bslash, 'r']
  else if c.toNat < 32 then
    [bslash, 'u', '0', '0', hexDigit (c.toNat / 16), hexDigit (c.toNat % 16)]
  else [c]

/-- A JSON string literal: quote, escaped characters, quote. -/
def strToJson (s : Str) : List Char :=
  qmark :: (s.map escChar).flatten ++ [qmark]

/-- Decimal digits of a natural number. -/
def natDigits (n : Nat) : List Char :=
  if h : n < 10 then [Char.ofNat (48 + n)]
  else natDigits (n / 10) ++ [Char.ofNat (48 + n % 10)]
termination_by n
decreasing_by
  exact Nat.div_lt_self (by omega) (by omega)

def boolToJson (b : Bool) : List Char :=
  if b then "true".data else "false".data

/-- `"key":` — an object key and its colon. -/
def jkey (s : String) : List Char :=
  strToJson s.data ++ [':']

/-- `,`-separated concatenation, as the members of a JSON object/array. -/
def joinComma : List (List Char) → List Char
  | [] => []
  | [x] => x
  | x :: xs => x ++ ',' :: joinComma xs

def fileToJson (f : CrdtFile) : List Char :=
  [lbrace] ++ jkey "path" ++ strToJson f.path ++ [','] ++
  jkey "content" ++ strToJson f.content ++ [','] ++
  jkey "language" ++ strToJson f.language ++ [','] ++
  jkey "created_at" ++ natDigits f.created_at ++ [','] ++
  jkey "modified_at" ++ natDigits f.modified_at ++ [rbrace]

def filesToJson (files : List (Str × CrdtFile)) : List Char :=
  [lbrace] ++ joinComma (files.map (fun e => strToJson e.1 ++ ':' :: fileToJson e.2)) ++
  [rbrace]

def strArrayToJson (xs : List Str) : List Char :=
  '[' :: joinComma (xs.map strToJson) ++ [']']

def folderToJson (f : CrdtFolder) : List Char :=
  [lbrace] ++ jkey "path" ++ strToJson f.path ++ [','] ++
  jkey "name" ++ strToJson f.name ++ [','] ++
  jkey "children" ++ strArrayToJson f.children ++ [rbrace]

def foldersToJson (folders : List (Str × CrdtFolder)) : List Char :=
  [lbrace] ++ joinComma (folders.map (fun e => strToJson e.1 ++ ':' :: folderToJson e.2)) ++
  [rbrace]

/-- `JSON.stringify` of a ProjectDocument, in field insertion order. -/
def docToJson (d : ProjectDocument) : List Char :=
  [lbrace] ++ jkey "files" ++ filesToJson d.files ++ [','] ++
  jkey "folders" ++ foldersToJson d.folders ++ [','] ++
  jkey "root_path" ++ strToJson d.root_path ++ [','] ++
  jkey "name" ++ strToJson d.name ++ [','] ++
  jkey "created_at" ++ natDigits d.created_at ++ [','] ++
  jkey "modified_at" ++ natDigits d.modified_at ++ [','] ++
  jkey "version" ++ natDigits d.version ++ [','] ++
  jkey "__automerge" ++ boolToJson d.automerge ++ [rbrace]

namespace DocumentManager

/-- `saveToBinary()`: `JSON.stringify(this.doc)` handed to `TextEncoder`
(the UTF-8 transport is left implicit, see the header). -/
def saveToBinary (doc : ProjectDocument) : List Char :=
  docToJson doc

/-- `generateSyncMessage(peerId)`: returns the document state. -/
def generateSyncMessage (_peerId : Str) (doc : ProjectDocument) : List Char :=
  saveToBinary doc

end DocumentManager

/-- Hexadecimal digit value accepted by the JSON `\uXXXX` escape. -/
def hexVal (c : Char) : Option Nat :=
  if 48 ≤ c.toNat ∧ c.toNat ≤ 57 then some (c.toNat - 48)
  else if 97 ≤ c.toNat ∧ c.toNat ≤ 102 then some (c.toNat - 87)
  else if 65 ≤ c.toNat ∧ c.toNat ≤ 70 then some (c.toNat - 55)
  else none

/-- Consume an expected literal character sequence. -/
def parseLit : List Char → List Char → Option (List Char)
  | [], input => some input
  | c :: cs, input =>
    match input with
    | [] => none
    | i :: is => if i = c then parseLit cs is else none

/-- The body of a JSON string literal after the opening quote, up to and
including the closing quote. Raw control characters are rejected and escapes
are decoded as `JSON.parse` does; a `\uXXXX` escape denoting a surrogate is
rejected (the document code never produces one). -/
def parseStringBody : List Char → Option (Str × List Char)
  | [] => none
  | c :: rest =>
    if c = qmark then some ([], rest)
    else if c = bslash then
      match rest with
      | [] => none
      | e :: rest2 =>
        if e = qmark then (parseStringBody rest2).map (fun r => (qmark :: r.1, r.2))
        else if e = bslash then (parseStringBody rest2).map (fun r => (bslash :: r.1, r.2))
        else if e = '/' then (parseStringBody rest2).map (fun r => ('/' :: r.1, r.2))
        else if e = 'b' then (parseStringBody rest2).map (fun r => (Char.ofNat 8 :: r.1, r.2))
        else if e = 't' then (parseStringBody rest2).map (fun r => (Char.ofNat 9 :: r.1, r.2))
        else if e = 'n' then (parseStringBody rest2).map (fun r => (Char.ofNat 10 :: r.1, r.2))
        else if e = 'f' then (parseStringBody rest2).map (fun r => (Char.ofNat 12 :: r.1, r.2))
        else if e = 'r' then (parseStringBody rest2).map (fun r => (Char.ofNat 13 :: r.1, r.2))
        else if e = 'u' then
          match rest2 with
          | h1 :: h2 :: h3 :: h4 :: rest3 =>
            match hexVal h1, hexVal h2, hexVal h3, hexVal h4 with
            | some a, some b, some cc, some d =>
              let n := ((a * 16 + b) * 16 + cc) * 16 + d
              if n.isValidChar then
                (parseStringBody rest3).map (fun r => (Char.ofNat n :: r.1, r.2))
              else none
            | _, _, _, _ => none
          | _ => none
        else none
    else if c.toNat < 32 then none
    else (parseStringBody rest).map (fun r => (c :: r.1, r.2))

/-- A JSON string literal including its opening quote. -/
def parseJString (input : List Char) : Option (Str × List Char) :=
  match input with
  | [] => none
  | c :: rest => if c = qmark then parseStringBody rest else none

def isDigitCh (c : Char) : Bool :=
  48 ≤ c.toNat && c.toNat ≤ 57

/-- Split the longest leading run of decimal digits. -/
def takeDigits : List Char → (List Char × List Char)
  | [] => ([], [])
  | c :: rest =>
    if isDigitCh c then
      let p := takeDigits rest
      (c :: p.1, p.2)
    else ([], c :: rest)

def digitsVal (ds : List Char) : Nat :=
  ds.foldl (fun a c => 10 * a + (c.toNat - 48)) 0

/-- A non-negative JSON integer (the only number shape the document schema
stores). -/
def parseJNat (input : List Char) : Option (Nat × List Char) :=
  match takeDigits input with
  | ([], _) => none
  | (ds, r) => some (digitsVal ds, r)

def parseJBool (input : List Char) : Option (Bool × List Char) :=
  match parseLit "true".data input with
  | some r => some (true, r)
  | none =>
    match parseLit "false".data input with
    | some r => some (false, r)
    | none => none

/-- The members of a non-empty JSON string array, up to and including the
closing bracket. `fuel` only bounds the number of members. -/
def parseStrItems : Nat → List Char → Option (List Str × List Char)
  | 0, _ => none
  | fuel + 1, input => do
    let (s, r1) ← parseJString input
    match r1 with
    | c :: r2 =>
      if c = ',' then
        let (xs, r3) ← parseStrItems fuel r2
        some (s :: xs, r3)
      else if c = ']' then some ([s], r2)
      else none
    | [] => none

/-- A JSON array of strings. -/
def parseStrArray (input : List Char) : Option (List Str × List Char) :=
  match input with
  | [] => none
  | c :: rest =>
    if c = '[' then
      match rest with
      | d :: rest2 => if d = ']' then some ([], rest2) else parseStrItems (rest.length + 1) rest
      | [] => none
    else none

/-- A serialised CrdtFile object. -/
def parseCrdtFile (input : List Char) : Option (CrdtFile × List Char) := do
  let r0 ← parseLit ([lbrace] ++ jkey "path") input
  let (p, r1) ← parseJString r0
  let r2 ← parseLit (',' :: jkey "content") r1
  let (c, r3) ← parseJString r2
  let r4 ← parseLit (',' :: jkey "language") r3
  let (lang, r5) ← parseJString r4
  let r6 ← parseLit (',' :: jkey "created_at") r5
  let (ca, r7) ← parseJNat r6
  let r8 ← parseLit (',' :: jkey "modified_at") r7
  let (ma, r9) ← parseJNat r8
  let r10 ← parseLit [rbrace] r9
  some ({ path := p, content := c, language := lang, created_at := ca, modified_at := ma }, r10)

/-- A serialised CrdtFolder object. -/
def parseCrdtFolder (input : List Char) : Option (CrdtFolder × List Char) := do
  let r0 ← parseLit ([lbrace] ++ jkey "path") input
  let (p, r1) ← parseJString r0
  let r2 ← parseLit (',' :: jkey "name") r1
  let (n, r3) ← parseJString r2
  let r4 ← parseLit (',' :: jkey "children") r3
  let (cs, r5) ← parseStrArray r4
  let r6 ← parseLit [rbrace] r5
  some ({ path := p, name := n, children := cs }, r6)

/-- The members of a non-empty serialised `files` record, up to and
including the closing brace. -/
def parseFileEntries : Nat → List Char → Option (List (Str × CrdtFile) × List Char)
  | 0, _ => none
  | fuel + 1, input => do
    let (k, r1) ← parseJString input
    let r2 ← parseLit [':'] r1
    let (f, r3) ← parseCrdtFile r2
    match r3 with
    | c :: r4 =>
      if c = ',' then
        let (es, r5) ← parseFileEntries fuel r4
        some ((k, f) :: es, r5)
      else if c = rbrace then some ([(k, f)], r4)
      else none
    | [] => none

/-- The serialised `files` record. -/
def parseFilesMap (input : List Char) : Option (List (Str × CrdtFile) × List Char) :=
  match input with
  | [] => none
  | c :: rest =>
    if c = lbrace then
      match rest with
      | d :: rest2 => if d = rbrace then some ([], rest2) else parseFileEntries (rest.length + 1) rest
      | [] => none
    else none

/-- The members of a non-empty serialised `folders` record. -/
def parseFolderEntries : Nat → List Char → Option (List (Str × CrdtFolder) × List Char)
  | 0, _ => none
  | fuel + 1, input => do
    let (k, r1) ← parseJString input
    let r2 ← parseLit [':'] r1
    let (f, r3) ← parseCrdtFolder r2
    match r3 with
    | c :: r4 =>
      if c = ',' then
        let (es, r5) ← parseFolderEntries fuel r4
        some ((k, f) :: es, r5)
      else if c = rbrace then some ([(k, f)], r4)
      else none
    | [] => none

/-- The serialised `folders` record. -/
def parseFoldersMap (input : List Char) : Option (List (Str × CrdtFolder) × List Char) :=
  match input with
  | [] => none
  | c :: rest =>
    if c = lbrace then
      match rest with
      | d :: rest2 => if d = rbrace then some ([], rest2) else parseFolderEntries (rest.length + 1) rest
      | [] => none
    else none

/-- The string metadata of a serialised ProjectDocument: root_path and
name. -/
def parseDocStrMeta (input : List Char) : Option ((Str × Str) × List Char) := do
  let r4 ← parseLit (',' :: jkey "root_path") input
  let (rp, r5) ← parseJString r4
  let r6 ← parseLit (',' :: jkey "name") r5
  let (nm, r7) ← parseJString r6
  some ((rp, nm), r7)

/-- The numeric/flag metadata of a serialised ProjectDocument: created_at,
modified_at, version, __automerge and the closing brace. -/
def parseDocNumMeta (input : List Char) :
    Option ((Nat × Nat × Nat × Bool) × List Char) := do
  let r8 ← parseLit (',' :: jkey "created_at") input
  let (ca, r9) ← parseJNat r8
  let r10 ← parseLit (',' :: jkey "modified_at") r9
  let (ma, r11) ← parseJNat r10
  let r12 ← parseLit (',' :: jkey "version") r11
  let (ver, r13) ← parseJNat r12
  let r14 ← parseLit (',' :: jkey "__automerge") r13
  let (am, r15) ← parseJBool r14
  let r16 ← parseLit [rbrace] r15
  some ((ca, ma, ver, am), r16)

/-- The metadata tail of a serialised ProjectDocument: root_path, name,
created_at, modified_at, version, __automerge and the closing brace. -/
def parseDocMeta (input : List Char) :
    Option ((Str × Str × Nat × Nat × Nat × Bool) × List Char) := do
  let (sm, r7) ← parseDocStrMeta input
  let (nm, r16) ← parseDocNumMeta r7
  some ((sm.1, sm.2, nm.1, nm.2.1, nm.2.2.1, nm.2.2.2), r16)

/-- A serialised ProjectDocument. -/
def parseProjectDocument (input : List Char) : Option (ProjectDocument × List Char) := do
  let r0 ← parseLit ([lbrace] ++ jkey "files") input
  let (files, r1) ← parseFilesMap r0
  let r2 ← parseLit (',' :: jkey "folders") r1
  let (folders, r3) ← parseFoldersMap r2
  let (meta, r4) ← parseDocMeta r3
  some ({ files := files, folders := folders, root_path := meta.1,
          name := meta.2.1, created_at := meta.2.2.1, modified_at := meta.2.2.2.1,
          version := meta.2.2.2.2.1, automerge := meta.2.2.2.2.2 }, r4)

namespace DocumentManager

/-- `loadFromBinary(data)`: if the data looks like JSON (`{` or `[` first),
parse it and attach `__automerge: true`; otherwise (or when parsing fails)
initialise an empty document. -/
def loadFromBinary (now : Nat) (data : List Char) : ProjectDocument :=
  match data with
  | [] => createEmptyDocument now
  | c :: _ =>
    if c = lbrace ∨ c = '[' then
      match parseProjectDocument data with
      | some (d, []) => { d with automerge := true }
      | _ => createEmptyDocument now
    else createEmptyDocument now

/-- `receiveSyncMessage(peerId, message)`: if the message looks like JSON,
parse it and `merge` the remote document; binary (non-JSON) data is
ignored. -/
def receiveSyncMessage (doc : ProjectDocument) (now : Nat) (_peerId : Str)
    (message : List Char) : ProjectDocument :=
  match message with
  | [] => doc
  | c :: _ =>
    if c = lbrace ∨ c = '[' then
      match parseProjectDocument message with
      | some (remote, []) => merge doc remote now
      | _ => doc
    else doc

end DocumentManager

/-
  ===========================================================================
  JSON round-trip lemmas: the specialised parser inverts the printer.
  ===========================================================================
-/

theorem toNat_ofNat_valid {n : Nat} (h : n.isValidChar) : (Char.ofNat n).toNat = n := by
  unfold Char.ofNat
  split
  · rfl
  · simp_all [Char.toNat]

theorem parseLit_self (lit rest : List Char) : parseLit lit (lit ++ rest) = some rest := by
  induction lit with
  | nil => rfl
  | cons c cs ih => simp [parseLit, ih]

theorem parseLit_split (a b input : List Char) :
    parseLit (a ++ b) input = (parseLit a input).bind (parseLit b) := by
  induction a generalizing input with
  | nil => simp [parseLit]
  | cons c cs ih =>
    match input with
    | [] => rfl
    | i :: is =>
      by_cases h : i = c <;> simp [parseLit, h, ih]

theorem hexVal_hexDigit {m : Nat} (h : m < 16) : hexVal (hexDigit m) = some m := by
  interval_cases m <;> decide

theorem isValidChar_of_lt_32 {n : Nat} (h : n < 32) : n.isValidChar := by
  left
  omega

theorem psb_raw (c : Char) (t : List Char) (h1 : ¬c = qmark) (h2 : ¬c = bslash)
    (h3 : ¬c.toNat < 32) :
    parseStringBody (c :: t) = (parseStringBody t).map (fun r => (c :: r.1, r.2)) := by
  rw [parseStringBody.eq_def]
  simp only []
  rw [if_neg h1, if_neg h2, if_neg h3]

theorem psb_esc_quote (t : List Char) :
    parseStringBody (bslash :: qmark :: t) =
      (parseStringBody t).map (fun r => (qmark :: r.1, r.2)) := by
  rw [parseStringBody.eq_def]
  simp only []
  rw [if_neg (show ¬bslash = qmark by decide)]
  simp

theorem psb_esc_bslash (t : List Char) :
    parseStringBody (bslash :: bslash :: t) =
      (parseStringBody t).map (fun r => (bslash :: r.1, r.2)) := by
  rw [parseStringBody.eq_def]
  simp only []
  rw [if_neg (show ¬bslash = qmark by decide)]
  rw [if_neg (show ¬bslash = qmark by decide)]
  simp

theorem psb_esc_b (t : List Char) :
    parseStringBody (bslash :: 'b' :: t) =
      (parseStringBody t).map (fun r => (Char.ofNat 8 :: r.1, r.2)) := by
  rw [parseStringBody.eq_def]
  simp only []
  rw [if_neg (show ¬bslash = qmark by decide)]
  rw [if_neg (show ¬ 'b' = qmark by decide), if_neg (show ¬ 'b' = bslash by decide),
    if_neg (show ¬ 'b' = '/' by decide)]
  simp

theorem psb_esc_t (t : List Char) :
    parseStringBody (bslash :: 't' :: t) =
      (parseStringBody t).map (fun r => (Char.ofNat 9 :: r.1, r.2)) := by
  rw [parseStringBody.eq_def]
  simp only []
  rw [if_neg (show ¬bslash = qmark by decide)]
  rw [if_neg (show ¬ 't' = qmark by decide), if_neg (show ¬ 't' = bslash by decide),
    if_neg (show ¬ 't' = '/' by decide), if_neg (show ¬ 't' = 'b' by decide)]
  simp

theorem psb_esc_n (t : List Char) :
    parseStringBody (bslash :: 'n' :: t) =
      (parseStringBody t).map (fun r => (Char.ofNat 10 :: r.1, r.2)) := by
  rw [parseStringBody.eq_def]
  simp only []
  rw [if_neg (show ¬bslash = qmark by decide)]
  rw [if_neg (show ¬ 'n' = qmark by decide), if_neg (show ¬ 'n' = bslash by decide),
    if_neg (show ¬ 'n' = '/' by decide), if_neg (show ¬ 'n' = 'b' by decide),
    if_neg (show ¬ 'n' = 't' by decide)]
  simp

theorem psb_esc_f (t : List Char) :
    parseStringBody (bslash :: 'f' :: t) =
      (parseStringBody t).map (fun r => (Char.ofNat 12 :: r.1, r.2)) := by
  rw [parseStringBody.eq_def]
  simp only []
  rw [if_neg (show ¬bslash = qmark by decide)]
  rw [if_neg (show ¬ 'f' = qmark by decide), if_neg (show ¬ 'f' = bslash by decide),
    if_neg (show ¬ 'f' = '/' by decide), if_neg (show ¬ 'f' = 'b' by decide),
    if_neg (show ¬ 'f' = 't' by decide), if_neg (show ¬ 'f' = 'n' by decide)]
  simp

theorem psb_esc_r (t : List Char) :
    parseStringBody (bslash :: 'r' :: t) =
      (parseStringBody t).map (fun r => (Char.ofNat 13 :: r.1, r.2)) := by
  rw [parseStringBody.eq_def]
  simp only []
  rw [if_neg (show ¬bslash = qmark by decide)]
  rw [if_neg (show ¬ 'r' = qmark by decide), if_neg (show ¬ 'r' = bslash by decide),
    if_neg (show ¬ 'r' = '/' by decide), if_neg (show ¬ 'r' = 'b' by decide),
    if_neg (show ¬ 'r' = 't' by decide), if_neg (show ¬ 'r' = 'n' by decide),
    if_neg (show ¬ 'r' = 'f' by decide)]
  simp

theorem psb_esc_u {n : Nat} (hn : n < 32) (t : List Char) :
    parseStringBody (bslash :: 'u' :: '0' :: '0' :: hexDigit (n / 16) :: hexDigit (n % 16) :: t) =
      (parseStringBody t).map (fun r => (Char.ofNat n :: r.1, r.2)) := by
  rw [parseStringBody.eq_def]
  simp only []
  rw [if_neg (show ¬bslash = qmark by decide)]
  rw [if_neg (show ¬ 'u' = qmark by decide), if_neg (show ¬ 'u' = bslash by decide),
    if_neg (show ¬ 'u' = '/' by decide), if_neg (show ¬ 'u' = 'b' by decide),
    if_neg (show ¬ 'u' = 't' by decide), if_neg (show ¬ 'u' = 'n' by decide),
    if_neg (show ¬ 'u' = 'f' by decide), if_neg (show ¬ 'u' = 'r' by decide)]
  rw [show hexVal '0' = some 0 by decide]
  rw [hexVal_hexDigit (show n / 16 < 16 by omega),
    hexVal_hexDigit (Nat.mod_lt _ (by omega))]
  simp only []
  rw [show ((0 * 16 + 0) * 16 + n / 16) * 16 + n % 16 = n by omega]
  rw [if_pos (isValidChar_of_lt_32 hn)]
  simp

/-- One escaped character parses back to itself. -/
theorem parseStringBody_escChar (c : Char) (tail : List Char) :
    parseStringBody (escChar c ++ tail) =
      (parseStringBody tail).map (fun r => (c :: r.1, r.2)) := by
  rw [escChar]
  by_cases h1 : c = qmark
  · rw [if_pos h1, h1]
    exact psb_esc_quote tail
  · rw [if_neg h1]
    by_cases h2 : c = bslash
    · rw [if_pos h2, h2]
      exact psb_esc_bslash tail
    · rw [if_neg h2]
      by_cases h3 : c = Char.ofNat 8
      · rw [if_pos h3, h3]
        exact psb_esc_b tail
      · rw [if_neg h3]
        by_cases h4 : c = Char.ofNat 9
        · rw [if_pos h4, h4]
          exact psb_esc_t tail
        · rw [if_neg h4]
          by_cases h5 : c = Char.ofNat 10
          · rw [if_pos h5, h5]
            exact psb_esc_n tail
          · rw [if_neg h5]
            by_cases h6 : c = Char.ofNat 12
            · rw [if_pos h6, h6]
              exact psb_esc_f tail
            · rw [if_neg h6]
              by_cases h7 : c = Char.ofNat 13
              · rw [if_pos h7, h7]
                exact psb_esc_r tail
              · rw [if_neg h7]
                by_cases h8 : c.toNat < 32
                · rw [if_pos h8]
                  simp only [List.cons_append, List.nil_append]
                  rw [psb_esc_u h8 tail]
                  rw [Char.ofNat_toNat]
                · rw [if_neg h8]
                  simp only [List.singleton_append]
                  exact psb_raw c tail h1 h2 h8

/-- The printed body of a string followed by the closing quote parses back
to the string. -/
theorem parseStringBody_self (s : Str) (rest : List Char) :
    parseStringBody ((s.map escChar).flatten ++ qmark :: rest) = some (s, rest) := by
  induction s with
  | nil =>
    simp only [List.map_nil, List.flatten_nil, List.nil_append]
    rw [parseStringBody.eq_def]
    simp only []
    simp
  | cons c cs ih =>
    simp only [List.map_cons, List.flatten_cons, List.append_assoc]
    rw [parseStringBody_escChar, ih]
    rfl

/-- A printed string literal parses back to the string. -/
theorem parseJString_self (s : Str) (rest : List Char) :
    parseJString (strToJson s ++ rest) = some (s, rest) := by
  rw [strToJson]
  simp only [List.cons_append, List.append_assoc, List.singleton_append]
  rw [parseJString]
  rw [if_pos rfl]
  exact parseStringBody_self s rest

theorem toNat_digit {m : Nat} (h : m < 10) : (Char.ofNat (48 + m)).toNat = 48 + m :=
  toNat_ofNat_valid (by left; omega)

theorem natDigits_are_digits (n : Nat) : ∀ c ∈ natDigits n, isDigitCh c = true := by
  induction n using Nat.strong_induction_on with
  | _ n ih =>
    rw [natDigits]
    by_cases h : n < 10
    · rw [dif_pos h]
      intro c hc
      rw [List.mem_singleton] at hc
      subst hc
      rw [isDigitCh, toNat_digit h]
      simp
      omega
    · rw [dif_neg h]
      intro c hc
      rw [List.mem_append] at hc
      rcases hc with hc | hc
      · exact ih (n / 10) (Nat.div_lt_self (by omega) (by omega)) c hc
      · rw [List.mem_singleton] at hc
        subst hc
        rw [isDigitCh, toNat_digit (Nat.mod_lt _ (by omega))]
        simp
        omega

theorem natDigits_ne_nil (n : Nat) : natDigits n ≠ [] := by
  rw [natDigits]
  by_cases h : n < 10
  · rw [dif_pos h]
    simp
  · rw [dif_neg h]
    simp

theorem digitsVal_natDigits (n : Nat) : digitsVal (natDigits n) = n := by
  induction n using Nat.strong_induction_on with
  | _ n ih =>
    rw [natDigits]
    by_cases h : n < 10
    · rw [dif_pos h]
      rw [digitsVal, List.foldl_cons, List.foldl_nil, toNat_digit h]
      omega
    · rw [dif_neg h]
      rw [digitsVal, List.foldl_append, List.foldl_cons, List.foldl_nil]
      rw [← digitsVal]
      rw [ih (n / 10) (Nat.div_lt_self (by omega) (by omega))]
      rw [toNat_digit (Nat.mod_lt _ (by omega))]
      omega

/-- The next character is not a decimal digit, so the greedy number parse
stops exactly there. -/
def headNotDigit : List Char → Prop
  | [] => True
  | c :: _ => isDigitCh c = false

theorem takeDigits_split (ds rest : List Char) (hds : ∀ c ∈ ds, isDigitCh c = true)
    (hrest : headNotDigit rest) : takeDigits (ds ++ rest) = (ds, rest) := by
  induction ds with
  | nil =>
    match rest with
    | [] => rfl
    | c :: t =>
      rw [List.nil_append, takeDigits]
      rw [headNotDigit] at hrest
      rw [hrest]
      simp
  | cons d ds ih =>
    rw [List.cons_append, takeDigits]
    rw [hds d (List.mem_cons_self _ _)]
    rw [ih (fun c hc => hds c (List.mem_cons_of_mem _ hc))]
    simp

theorem parseJNat_self (n : Nat) (rest : List Char) (hrest : headNotDigit rest) :
    parseJNat (natDigits n ++ rest) = some (n, rest) := by
  rw [parseJNat]
  rw [takeDigits_split (natDigits n) rest (natDigits_are_digits n) hrest]
  cases hnd : natDigits n with
  | nil => exact absurd hnd (natDigits_ne_nil n)
  | cons d ds =>
    simp only []
    rw [← hnd, digitsVal_natDigits]

theorem parseJBool_self (b : Bool) (rest : List Char) :
    parseJBool (boolToJson b ++ rest) = some (b, rest) := by
  cases b
  · rw [boolToJson]
    simp only [Bool.false_eq_true, if_false]
    rw [parseJBool]
    rw [show "false".data = 'f' :: "alse".data from rfl]
    rw [show "true".data = 't' :: "rue".data from rfl]
    rw [List.cons_append, parseLit]
    rw [if_neg (show ¬ 'f' = 't' by decide)]
    rw [← List.cons_append, ← show "false".data = 'f' :: "alse".data from rfl]
    rw [parseLit_self]
  · rw [boolToJson]
    simp only [if_true]
    rw [parseJBool, parseLit_self]

theorem strToJson_length (s : Str) : 2 ≤ (strToJson s).length := by
  rw [strToJson]
  simp

theorem joinComma_strs_length (l : List Str) :
    l.length ≤ (joinComma (l.map strToJson)).length := by
  match l with
  | [] => simp [joinComma]
  | [x] =>
    have := strToJson_length x
    simp [joinComma]
    omega
  | x :: y :: t =>
    have h1 := strToJson_length x
    have h2 := joinComma_strs_length (y :: t)
    simp only [List.map_cons, List.length_cons] at h2
    simp only [List.map_cons, joinComma, List.length_append, List.length_cons]
    omega

theorem parseStrItems_self (xs : List Str) (x : Str) (fuel : Nat) (rest : List Char)
    (hfuel : xs.length < fuel) :
    parseStrItems fuel (joinComma ((x :: xs).map strToJson) ++ ']' :: rest) =
      some (x :: xs, rest) := by
  induction xs generalizing x fuel rest with
  | nil =>
    match fuel, hfuel with
    | f + 1, _ =>
      rw [List.map_cons, List.map_nil, joinComma]
      rw [parseStrItems]
      rw [parseJString_self]
      simp only [Option.bind_eq_bind, Option.some_bind]
      rw [if_neg (show ¬ ']' = ',' by decide)]
      simp
  | cons y ys ih =>
    match fuel, hfuel with
    | f + 1, hfuel =>
      rw [List.map_cons, joinComma]
      rw [show (strToJson x ++ ',' :: joinComma ((y :: ys).map strToJson)) ++ ']' :: rest =
        strToJson x ++ (',' :: (joinComma ((y :: ys).map strToJson) ++ ']' :: rest)) by simp]
      rw [parseStrItems]
      rw [parseJString_self]
      simp only [Option.bind_eq_bind, Option.some_bind]
      simp only [if_true]
      rw [ih y f rest (by simpa using Nat.lt_of_succ_lt_succ hfuel)]
      simp only [Option.bind_eq_bind, Option.some_bind]
      simp

theorem parseStrArray_self (xs : List Str) (rest : List Char) :
    parseStrArray (strArrayToJson xs ++ rest) = some (xs, rest) := by
  match xs with
  | [] =>
    rw [strArrayToJson, List.map_nil, joinComma]
    rw [show (('[' :: ([] : List Char) ++ [']']) ++ rest) = '[' :: ']' :: rest by simp]
    rw [parseStrArray.eq_def]
    simp
  | x :: xs2 =>
    obtain ⟨tA, htA⟩ : ∃ t, joinComma ((x :: xs2).map strToJson) = qmark :: t := by
      match xs2 with
      | [] =>
        refine ⟨(x.map escChar).flatten ++ [qmark], ?_⟩
        simp [joinComma, strToJson]
      | y :: t2 =>
        refine ⟨((x.map escChar).flatten ++ [qmark]) ++
          ',' :: joinComma ((y :: t2).map strToJson), ?_⟩
        simp [joinComma, strToJson]
    rw [strArrayToJson]
    rw [show ('[' :: joinComma ((x :: xs2).map strToJson) ++ [']']) ++ rest =
      '[' :: (joinComma ((x :: xs2).map strToJson) ++ ']' :: rest) by simp]
    rw [parseStrArray.eq_def]
    rw [htA]
    show parseStrItems ((qmark :: tA ++ ']' :: rest).length + 1)
      (qmark :: (tA ++ ']' :: rest)) = some (x :: xs2, rest)
    rw [show qmark :: (tA ++ ']' :: rest) = (qmark :: tA) ++ ']' :: rest from rfl]
    rw [show (qmark :: tA) = joinComma ((x :: xs2).map strToJson) from htA.symm]
    rw [parseStrItems_self xs2 x _ rest ?_]
    have h1 := joinComma_strs_length (x :: xs2)
    simp only [List.length_cons] at h1
    simp only [List.length_append, List.length_cons]
    omega

theorem parseLit_cons_self (c : Char) (cs input : List Char) :
    parseLit (c :: cs) (c :: input) = parseLit cs input := by
  rw [parseLit]
  simp

theorem headNotDigit_cons (c : Char) (t : List Char) :
    headNotDigit (c :: t) ↔ isDigitCh c = false := Iff.rfl

theorem isDigitCh_comma : isDigitCh ',' = false := by decide

theorem isDigitCh_rbrace : isDigitCh rbrace = false := by decide

theorem parseLit_nil (input : List Char) : parseLit [] input = some input := rfl

theorem parseCrdtFile_self (f : CrdtFile) (rest : List Char) :
    parseCrdtFile (fileToJson f ++ rest) = some (f, rest) := by
  rw [fileToJson, parseCrdtFile]
  simp only [List.append_assoc, List.cons_append, List.singleton_append, List.nil_append]
  simp only [parseLit_cons_self, parseLit_self, parseLit_nil,
    parseJString_self, parseJBool_self, parseStrArray_self,
    Option.bind_eq_bind, Option.some_bind]
  rw [parseJNat_self f.created_at _ (by rw [headNotDigit_cons]; exact isDigitCh_comma)]
  simp only [Option.some_bind]
  simp only [parseLit_cons_self, parseLit_self, parseLit_nil, parseJString_self,
    Option.some_bind]
  rw [parseJNat_self f.modified_at _ (by rw [headNotDigit_cons]; exact isDigitCh_rbrace)]
  simp only [Option.some_bind, parseLit_cons_self, parseLit_nil]

theorem parseCrdtFolder_self (f : CrdtFolder) (rest : List Char) :
    parseCrdtFolder (folderToJson f ++ rest) = some (f, rest) := by
  rw [folderToJson, parseCrdtFolder]
  simp only [List.append_assoc, List.cons_append, List.singleton_append, List.nil_append]
  simp only [parseLit_cons_self, parseLit_self, parseLit_nil,
    parseJString_self, parseStrArray_self,
    Option.bind_eq_bind, Option.some_bind]

theorem joinComma_length_ge (xss : List (List Char)) (h : ∀ x ∈ xss, 1 ≤ x.length) :
    xss.length ≤ (joinComma xss).length := by
  match xss with
  | [] => simp [joinComma]
  | [x] =>
    have := h x (List.mem_singleton.mpr rfl)
    simp [joinComma]
    omega
  | x :: y :: t =>
    have h1 := h x (List.mem_cons_self _ _)
    have h2 := joinComma_length_ge (y :: t) (fun z hz => h z (List.mem_cons_of_mem _ hz))
    simp only [List.length_cons] at h2
    simp only [joinComma, List.length_append, List.length_cons]
    omega

theorem isDigitCh_qmark : isDigitCh qmark = false := by decide

theorem parseFileEntries_self (es : List (Str × CrdtFile)) (e : Str × CrdtFile)
    (fuel : Nat) (rest : List Char) (hfuel : es.length < fuel) :
    parseFileEntries fuel
      (joinComma ((e :: es).map (fun e => strToJson e.1 ++ ':' :: fileToJson e.2)) ++
        rbrace :: rest) = some (e :: es, rest) := by
  induction es generalizing e fuel rest with
  | nil =>
    match fuel, hfuel with
    | f + 1, _ =>
      rw [List.map_cons, List.map_nil, joinComma]
      rw [parseFileEntries]
      simp only [List.append_assoc, List.cons_append, List.singleton_append]
      rw [parseJString_self]
      simp only [Option.bind_eq_bind, Option.some_bind]
      rw [parseLit_cons_self, parseLit_nil]
      simp only [Option.some_bind]
      rw [parseCrdtFile_self]
      simp only [Option.some_bind]
      rw [if_neg (show ¬rbrace = ',' by decide)]
      simp
  | cons y ys ih =>
    match fuel, hfuel with
    | f + 1, hfuel =>
      rw [List.map_cons, joinComma]
      rw [show (strToJson e.1 ++ ':' :: fileToJson e.2) ++
        ',' :: joinComma ((y :: ys).map (fun e => strToJson e.1 ++ ':' :: fileToJson e.2)) =
        strToJson e.1 ++ ':' :: (fileToJson e.2 ++
        ',' :: joinComma ((y :: ys).map (fun e => strToJson e.1 ++ ':' :: fileToJson e.2)))
        by simp]
      rw [parseFileEntries]
      simp only [List.append_assoc, List.cons_append, List.singleton_append]
      rw [parseJString_self]
      simp only [Option.bind_eq_bind, Option.some_bind]
      rw [parseLit_cons_self, parseLit_nil]
      simp only [Option.some_bind]
      rw [parseCrdtFile_self]
      simp only [Option.some_bind]
      simp only [if_true]
      rw [ih y f rest (by simpa using Nat.lt_of_succ_lt_succ hfuel)]
      simp only [Option.bind_eq_bind, Option.some_bind]
      simp

theorem parseFilesMap_self (files : List (Str × CrdtFile)) (rest : List Char) :
    parseFilesMap (filesToJson files ++ rest) = some (files, rest) := by
  match files with
  | [] =>
    rw [filesToJson, List.map_nil, joinComma]
    rw [show (([lbrace] ++ ([] : List Char) ++ [rbrace]) ++ rest) = lbrace :: rbrace :: rest
      by simp]
    rw [parseFilesMap.eq_def]
    simp
  | e :: es =>
    obtain ⟨tA, htA⟩ : ∃ t,
        joinComma ((e :: es).map (fun e => strToJson e.1 ++ ':' :: fileToJson e.2)) =
          qmark :: t := by
      match es with
      | [] =>
        refine ⟨((e.1.map escChar).flatten ++ [qmark]) ++ ':' :: fileToJson e.2, ?_⟩
        simp [joinComma, strToJson]
      | y :: t2 =>
        refine ⟨(((e.1.map escChar).flatten ++ [qmark]) ++ ':' :: fileToJson e.2) ++
          ',' :: joinComma ((y :: t2).map (fun e => strToJson e.1 ++ ':' :: fileToJson e.2)), ?_⟩
        simp [joinComma, strToJson]
    rw [filesToJson]
    rw [show ([lbrace] ++
      joinComma ((e :: es).map (fun e => strToJson e.1 ++ ':' :: fileToJson e.2)) ++ [rbrace]) ++
      rest = lbrace ::
      (joinComma ((e :: es).map (fun e => strToJson e.1 ++ ':' :: fileToJson e.2)) ++
        rbrace :: rest) by simp]
    rw [parseFilesMap.eq_def]
    rw [htA]
    show parseFileEntries ((qmark :: tA ++ rbrace :: rest).length + 1)
      (qmark :: (tA ++ rbrace :: rest)) = some (e :: es, rest)
    rw [show qmark :: (tA ++ rbrace :: rest) = (qmark :: tA) ++ rbrace :: rest from rfl]
    rw [show (qmark :: tA) =
      joinComma ((e :: es).map (fun e => strToJson e.1 ++ ':' :: fileToJson e.2)) from htA.symm]
    rw [parseFileEntries_self es e _ rest ?_]
    have h1 := joinComma_length_ge
      ((e :: es).map (fun e => strToJson e.1 ++ ':' :: fileToJson e.2)) ?_
    · simp only [List.length_map, List.length_cons] at h1
      simp only [List.length_append, List.length_cons]
      omega
    · intro x hx
      obtain ⟨z, _, hz⟩ := List.mem_map.mp hx
      have := strToJson_length z.1
      rw [← hz]
      simp only [List.length_append, List.length_cons]
      omega

theorem parseFolderEntries_self (es : List (Str × CrdtFolder)) (e : Str × CrdtFolder)
    (fuel : Nat) (rest : List Char) (hfuel : es.length < fuel) :
    parseFolderEntries fuel
      (joinComma ((e :: es).map (fun e => strToJson e.1 ++ ':' :: folderToJson e.2)) ++
        rbrace :: rest) = some (e :: es, rest) := by
  induction es generalizing e fuel rest with
  | nil =>
    match fuel, hfuel with
    | f + 1, _ =>
      rw [List.map_cons, List.map_nil, joinComma]
      rw [parseFolderEntries]
      simp only [List.append_assoc, List.cons_append, List.singleton_append]
      rw [parseJString_self]
      simp only [Option.bind_eq_bind, Option.some_bind]
      rw [parseLit_cons_self, parseLit_nil]
      simp only [Option.some_bind]
      rw [parseCrdtFolder_self]
      simp only [Option.some_bind]
      rw [if_neg (show ¬rbrace = ',' by decide)]
      simp
  | cons y ys ih =>
    match fuel, hfuel with
    | f + 1, hfuel =>
      rw [List.map_cons, joinComma]
      rw [show (strToJson e.1 ++ ':' :: folderToJson e.2) ++
        ',' :: joinComma ((y :: ys).map (fun e => strToJson e.1 ++ ':' :: folderToJson e.2)) =
        strToJson e.1 ++ ':' :: (folderToJson e.2 ++
        ',' :: joinComma ((y :: ys).map (fun e => strToJson e.1 ++ ':' :: folderToJson e.2)))
        by simp]
      rw [parseFolderEntries]
      simp only [List.append_assoc, List.cons_append, List.singleton_append]
      rw [parseJString_self]
      simp only [Option.bind_eq_bind, Option.some_bind]
      rw [parseLit_cons_self, parseLit_nil]
      simp only [Option.some_bind]
      rw [parseCrdtFolder_self]
      simp only [Option.some_bind]
      simp only [if_true]
      rw [ih y f rest (by simpa using Nat.lt_of_succ_lt_succ hfuel)]
      simp only [Option.bind_eq_bind, Option.some_bind]
      simp

theorem parseFoldersMap_self (folders : List (Str × CrdtFolder)) (rest : List Char) :
    parseFoldersMap (foldersToJson folders ++ rest) = some (folders, rest) := by
  match folders with
  | [] =>
    rw [foldersToJson, List.map_nil, joinComma]
    rw [show (([lbrace] ++ ([] : List Char) ++ [rbrace]) ++ rest) = lbrace :: rbrace :: rest
      by simp]
    rw [parseFoldersMap.eq_def]
    simp
  | e :: es =>
    obtain ⟨tA, htA⟩ : ∃ t,
        joinComma ((e :: es).map (fun e => strToJson e.1 ++ ':' :: folderToJson e.2)) =
          qmark :: t := by
      match es with
      | [] =>
        refine ⟨((e.1.map escChar).flatten ++ [qmark]) ++ ':' :: folderToJson e.2, ?_⟩
        simp [joinComma, strToJson]
      | y :: t2 =>
        refine ⟨(((e.1.map escChar).flatten ++ [qmark]) ++ ':' :: folderToJson e.2) ++
          ',' :: joinComma ((y :: t2).map (fun e => strToJson e.1 ++ ':' :: folderToJson e.2)), ?_⟩
        simp [joinComma, strToJson]
    rw [foldersToJson]
    rw [show ([lbrace] ++
      joinComma ((e :: es).map (fun e => strToJson e.1 ++ ':' :: folderToJson e.2)) ++ [rbrace]) ++
      rest = lbrace ::
      (joinComma ((e :: es).map (fun e => strToJson e.1 ++ ':' :: folderToJson e.2)) ++
        rbrace :: rest) by simp]
    rw [parseFoldersMap.eq_def]
    rw [htA]
    show parseFolderEntries ((qmark :: tA ++ rbrace :: rest).length + 1)
      (qmark :: (tA ++ rbrace :: rest)) = some (e :: es, rest)
    rw [show qmark :: (tA ++ rbrace :: rest) = (qmark :: tA) ++ rbrace :: rest from rfl]
    rw [show (qmark :: tA) =
      joinComma ((e :: es).map (fun e => strToJson e.1 ++ ':' :: folderToJson e.2)) from htA.symm]
    rw [parseFolderEntries_self es e _ rest ?_]
    have h1 := joinComma_length_ge
      ((e :: es).map (fun e => strToJson e.1 ++ ':' :: folderToJson e.2)) ?_
    · simp only [List.length_map, List.length_cons] at h1
      simp only [List.length_append, List.length_cons]
      omega
    · intro x hx
      obtain ⟨z, _, hz⟩ := List.mem_map.mp hx
      have := strToJson_length z.1
      rw [← hz]
      simp only [List.length_append, List.length_cons]
      omega

theorem parseDocStrMeta_self (rp nm : Str) (rest : List Char) :
    parseDocStrMeta (',' :: (jkey "root_path" ++ (strToJson rp ++
      (',' :: (jkey "name" ++ (strToJson nm ++ rest)))))) = some ((rp, nm), rest) := by
  rw [parseDocStrMeta]
  simp only [parseLit_cons_self, parseLit_self, parseLit_nil, parseJString_self,
    Option.bind_eq_bind, Option.some_bind]

theorem parseDocNumMeta_self (ca ma ver : Nat) (am : Bool) (rest : List Char) :
    parseDocNumMeta (',' :: (jkey "created_at" ++ (natDigits ca ++
      (',' :: (jkey "modified_at" ++ (natDigits ma ++
      (',' :: (jkey "version" ++ (natDigits ver ++
      (',' :: (jkey "__automerge" ++ (boolToJson am ++ (rbrace :: rest))))))))))))) =
      some ((ca, ma, ver, am), rest) := by
  rw [parseDocNumMeta]
  simp only [parseLit_cons_self, parseLit_self, parseLit_nil,
    Option.bind_eq_bind, Option.some_bind]
  rw [parseJNat_self ca _ (by rw [headNotDigit_cons]; exact isDigitCh_comma)]
  simp only [Option.some_bind, parseLit_cons_self, parseLit_self, parseLit_nil]
  rw [parseJNat_self ma _ (by rw [headNotDigit_cons]; exact isDigitCh_comma)]
  simp only [Option.some_bind, parseLit_cons_self, parseLit_self, parseLit_nil]
  rw [parseJNat_self ver _ (by rw [headNotDigit_cons]; exact isDigitCh_comma)]
  simp only [Option.some_bind, parseLit_cons_self, parseLit_self, parseLit_nil]
  rw [parseJBool_self]
  simp only [Option.some_bind, parseLit_cons_self, parseLit_nil]

/-- The document parser inverts `JSON.stringify` of a document. -/
theorem parseProjectDocument_self (d : ProjectDocument) (rest : List Char) :
    parseProjectDocument (docToJson d ++ rest) = some (d, rest) := by
  rw [docToJson, parseProjectDocument]
  simp only [List.append_assoc, List.cons_append, List.singleton_append, List.nil_append]
  simp only [parseLit_cons_self, parseLit_self, parseLit_nil,
    parseFilesMap_self, parseFoldersMap_self,
    Option.bind_eq_bind, Option.some_bind]
  rw [parseDocMeta]
  rw [parseDocStrMeta_self]
  simp only [Option.bind_eq_bind, Option.some_bind]
  rw [parseDocNumMeta_self]
  simp only [Option.some_bind]

theorem docToJson_head (d : ProjectDocument) : ∃ t, docToJson d = lbrace :: t := by
  rw [docToJson]
  simp only [List.append_assoc, List.cons_append, List.singleton_append]
  exact ⟨_, rfl⟩

/-- `loadFromBinary` restores exactly the document `saveToBinary` wrote,
with the `__automerge` marker attached. -/
theorem loadFromBinary_save (now : Nat) (d : ProjectDocument) :
    DocumentManager.loadFromBinary now (DocumentManager.saveToBinary d) =
      { d with automerge := true } := by
  obtain ⟨t, ht⟩ := docToJson_head d
  rw [DocumentManager.saveToBinary, DocumentManager.loadFromBinary.eq_def, ht]
  simp only []
  rw [if_pos (Or.inl trivial)]
  rw [← ht]
  rw [show docToJson d = docToJson d ++ [] by simp]
  rw [parseProjectDocument_self d []]

/-- Receiving the serialised state of another replica merges it. -/
theorem receiveSyncMessage_save (doc other : ProjectDocument) (now : Nat) (p : Str) :
    DocumentManager.receiveSyncMessage doc now p (DocumentManager.saveToBinary other) =
      DocumentManager.merge doc other now := by
  obtain ⟨t, ht⟩ := docToJson_head other
  rw [DocumentManager.saveToBinary, DocumentManager.receiveSyncMessage.eq_def, ht]
  simp only []
  rw [if_pos (Or.inl trivial)]
  rw [← ht]
  rw [show docToJson other = docToJson other ++ [] by simp]
  rw [parseProjectDocument_self other []]

/-
  ===========================================================================
  Binary wire codec — client/app/lib/protocol.ts.

  Wire bytes are `List Nat` (each value < 256 as produced by the encoder).
  Protocol strings travel as their UTF-8 bytes; they are modelled as the
  byte lists themselves (`writeString` length-prefixes the UTF-8 byte
  count, which is the list length).

  `BincodeEncoder.writeU32` masks through JavaScript 32-bit bit operations;
  for 0 ≤ v < 2^32 the bytes pushed are exactly the little-endian base-256
  digits, which is what the model writes. `writeU64` splits into
  `v >>> 0 = v mod 2^32` and `floor(v / 2^32)`. `BincodeDecoder` reads
  throw on out-of-range access (DataView/Uint8Array), modelled as `none`.

  The four workspace-sharing client variants (ShareWorkspace, ShareFile,
  FileEdit, RequestWorkspace) travel over the JSON path; `encodeClient`
  throws on them in `getClientMessageType`, modelled by `Option`.
  ===========================================================================
-/

namespace Proto

def MAX_MESSAGE_SIZE : Nat := 16 * 1024 * 1024

/-- Bytes a protocol string travels as (its UTF-8 encoding). -/
abbrev ByteStr := List Nat

def u8Byte (v : Nat) : List Nat := [v % 256]

def u16Bytes (v : Nat) : List Nat := [v % 256, v / 256 % 256]

def u32Bytes (v : Nat) : List Nat :=
  [v % 256, v / 256 % 256, v / 65536 % 256, v / 16777216 % 256]

def u64Bytes (v : Nat) : List Nat :=
  u32Bytes (v % 4294967296) ++ u32Bytes (v / 4294967296)

def boolBytes (b : Bool) : List Nat := [if b then 1 else 0]

def strBytes (s : ByteStr) : List Nat := u64Bytes s.length ++ s

def bytesBytes (b : List Nat) : List Nat := u64Bytes b.length ++ b

def optBytes {α : Type} (f : α → List Nat) : Option α → List Nat
  | none => [0]
  | some v => 1 :: f v

def variantBytes (i : Nat) : List Nat := u32Bytes i

def readU8 : List Nat → Option (Nat × List Nat)
  | [] => none
  | b :: r => some (b, r)

def readU16 : List Nat → Option (Nat × List Nat)
  | a :: b :: r => some (a + 256 * b, r)
  | _ => none

def readU32 : List Nat → Option (Nat × List Nat)
  | a :: b :: c :: d :: r => some (a + 256 * b + 65536 * c + 16777216 * d, r)
  | _ => none

def readU64 (input : List Nat) : Option (Nat × List Nat) := do
  let (low, r1) ← readU32 input
  let (high, r2) ← readU32 r1
  some (high * 4294967296 + low, r2)

def readBool (input : List Nat) : Option (Bool × List Nat) := do
  let (b, r) ← readU8 input
  some (b ≠ 0, r)

def readStr (input : List Nat) : Option (ByteStr × List Nat) := do
  let (len, r) ← readU64 input
  if r.length < len then none
  else some (r.take len, r.drop len)

def readBytesP (input : List Nat) : Option (List Nat × List Nat) :=
  readStr input

def readOpt {α : Type} (f : List Nat → Option (α × List Nat)) (input : List Nat) :
    Option (Option α × List Nat) := do
  let (b, r) ← readU8 input
  if b = 0 then some (none, r)
  else do
    let (v, r2) ← f r
    some (some v, r2)

def readVariant (input : List Nat) : Option (Nat × List Nat) := readU32 input

/-- enum PresenceStatus. -/
inductive PresenceStatus
  | Active
  | Idle
  | Away
  | Offline
deriving DecidableEq, Repr

/-- interface PeerInfo. -/
structure PeerInfo where
  peer_id : ByteStr
  name : ByteStr
  color : ByteStr
  status : PresenceStatus
  active_file : Option ByteStr
  joined_at : Nat
deriving DecidableEq, Repr

/-- interface ChatHistoryItem. -/
structure ChatHistoryItem where
  peer_id : ByteStr
  peer_name : ByteStr
  content : ByteStr
  timestamp : Nat
deriving DecidableEq, Repr

/-- The binary client→server tagged union (type ClientMessage without the
JSON-only workspace-sharing variants, which `encodeClient` rejects). -/
inductive ClientMessage
  | hello (protocol_version : Nat) (client_id : Option ByteStr)
      (client_name : ByteStr) (session_token : Option ByteStr)
  | goodbye (reason : Option ByteStr)
  | joinProject (project_id : ByteStr) (request_state : Bool)
  | leaveProject (project_id : ByteStr)
  | syncMessage (project_id : ByteStr) (sync_data : List Nat)
  | syncRequest (project_id : ByteStr)
  | openFile (project_id : ByteStr) (file_path : ByteStr)
  | closeFile (project_id : ByteStr) (file_path : ByteStr)
  | cursorUpdate (project_id : ByteStr) (file_path : ByteStr)
      (line : Nat) (column : Nat) (selection_end : Option (Nat × Nat))
  | presenceUpdate (project_id : ByteStr) (status : PresenceStatus)
      (active_file : Option ByteStr)
  | chatMessage (project_id : ByteStr) (content : ByteStr)
  | voiceJoin (project_id : ByteStr)
  | voiceLeave (project_id : ByteStr)
  | ping (timestamp : Nat)
deriving DecidableEq, Repr

/-- The binary server→client tagged union (type ServerMessage restricted to
the variants `decodeServerPayload` can produce). -/
inductive ServerMessage
  | welcome (protocol_version : Nat) (peer_id : ByteStr) (color : ByteStr)
      (session_token : ByteStr) (server_time : Nat)
  | error (code : Nat) (message : ByteStr) (project_id : Option ByteStr)
  | goodbye (reason : Option ByteStr)
  | projectJoined (project_id : ByteStr) (peers : List PeerInfo)
      (document_state : Option (List Nat))
  | peerJoined (project_id : ByteStr) (peer : PeerInfo)
  | projectLeft (project_id : ByteStr)
  | peerLeft (project_id : ByteStr) (peer_id : ByteStr) (reason : Option ByteStr)
  | syncMessage (project_id : ByteStr) (sync_data : List Nat)
      (from_peer : Option ByteStr)
  | syncComplete (project_id : ByteStr)
  | fileContent (project_id : ByteStr) (file_path : ByteStr) (content : ByteStr)
      (language : ByteStr) (version : Nat)
  | fileNotFound (project_id : ByteStr) (file_path : ByteStr)
  | cursorBroadcast (project_id : ByteStr) (peer_id : ByteStr) (peer_name : ByteStr)
      (peer_color : ByteStr) (file_path : ByteStr) (line : Nat) (column : Nat)
      (selection_end : Option (Nat × Nat))
  | presenceBroadcast (project_id : ByteStr) (peer_id : ByteStr) (peer_name : ByteStr)
      (status : PresenceStatus) (active_file : Option ByteStr) (last_active : Nat)
  | chatBroadcast (project_id : ByteStr) (peer_id : ByteStr) (peer_name : ByteStr)
      (content : ByteStr) (timestamp : Nat)
  | chatHistory (project_id : ByteStr) (messages : List ChatHistoryItem)
  | voiceToken (project_id : ByteStr) (token : ByteStr) (room_name : ByteStr)
      (server_url : ByteStr)
  | pong (timestamp : Nat) (server_time : Nat)
  | stats (active_projects : Nat) (active_peers : Nat) (uptime_seconds : Nat)
deriving DecidableEq, Repr

/-- `encodePresenceStatus`. -/
def encodePresenceStatus : PresenceStatus → List Nat
  | .Active => variantBytes 0
  | .Idle => variantBytes 1
  | .Away => variantBytes 2
  | .Offline => variantBytes 3

/-- `decodePresenceStatus`: unknown variants fall back to Active. -/
def decodePresenceStatus (input : List Nat) : Option (PresenceStatus × List Nat) := do
  let (v, r) ← readVariant input
  match v with
  | 0 => some (.Active, r)
  | 1 => some (.Idle, r)
  | 2 => some (.Away, r)
  | 3 => some (.Offline, r)
  | _ => some (.Active, r)

/-- `getClientMessageType`: the frame type byte (total here because the
JSON-only workspace-sharing variants, on which the source throws, are not
part of the binary union). -/
def getClientMessageType : ClientMessage → Nat
  | .hello .. => 0x01
  | .goodbye .. => 0x03
  | .joinProject .. => 0x20
  | .leaveProject .. => 0x21
  | .syncMessage .. => 0x11
  | .syncRequest .. => 0x10
  | .openFile .. => 0x30
  | .closeFile .. => 0x31
  | .cursorUpdate .. => 0x42
  | .presenceUpdate .. => 0x40
  | .chatMessage .. => 0x50
  | .voiceJoin .. => 0x60
  | .voiceLeave .. => 0x61
  | .ping .. => 0xf0

/-- `encodeClientPayload`: bincode variant index then the fields. -/
def encodeClientPayload : ClientMessage → List Nat
  | .hello pv cid cname tok =>
    variantBytes 0 ++ u8Byte pv ++ optBytes strBytes cid ++ strBytes cname ++
      optBytes strBytes tok
  | .goodbye reason => variantBytes 1 ++ optBytes strBytes reason
  | .joinProject pid rs => variantBytes 2 ++ strBytes pid ++ boolBytes rs
  | .leaveProject pid => variantBytes 3 ++ strBytes pid
  | .syncMessage pid dat => variantBytes 4 ++ strBytes pid ++ bytesBytes dat
  | .syncRequest pid => variantBytes 5 ++ strBytes pid
  | .openFile pid fp => variantBytes 6 ++ strBytes pid ++ strBytes fp
  | .closeFile pid fp => variantBytes 7 ++ strBytes pid ++ strBytes fp
  | .cursorUpdate pid fp line col sel =>
    variantBytes 8 ++ strBytes pid ++ strBytes fp ++ u32Bytes line ++ u32Bytes col ++
      optBytes (fun v => u32Bytes v.1 ++ u32Bytes v.2) sel
  | .presenceUpdate pid st af =>
    variantBytes 9 ++ strBytes pid ++ encodePresenceStatus st ++ optBytes strBytes af
  | .chatMessage pid content => variantBytes 10 ++ strBytes pid ++ strBytes content
  | .voiceJoin pid => variantBytes 11 ++ strBytes pid
  | .voiceLeave pid => variantBytes 12 ++ strBytes pid
  | .ping ts => variantBytes 13 ++ u64Bytes ts

/-- `SyncProtocol.encodeClient`: payload, size check, then the frame
`[version][type][len u24 big-endian][payload]`. -/
def encodeClient (m : ClientMessage) : Option (List Nat) :=
  let payload := encodeClientPayload m
  if payload.length + 5 > MAX_MESSAGE_SIZE then none
  else
    some (1 :: getClientMessageType m ::
      (payload.length / 65536 % 256) :: (payload.length / 256 % 256) ::
      (payload.length % 256) :: payload)

/-- `decodeErrorCode`: a u16 cast straight to the enum. -/
def decodeErrorCode (input : List Nat) : Option (Nat × List Nat) := readU16 input

/-- `decodePeerInfo`. -/
def decodePeerInfo (input : List Nat) : Option (PeerInfo × List Nat) := do
  let (pid, r1) ← readStr input
  let (nm, r2) ← readStr r1
  let (col, r3) ← readStr r2
  let (st, r4) ← decodePresenceStatus r3
  let (af, r5) ← readOpt readStr r4
  let (ja, r6) ← readU64 r5
  some ({ peer_id := pid, name := nm, color := col, status := st,
          active_file := af, joined_at := ja }, r6)

/-- `decodeChatHistoryItem`. -/
def decodeChatHistoryItem (input : List Nat) : Option (ChatHistoryItem × List Nat) := do
  let (pid, r1) ← readStr input
  let (nm, r2) ← readStr r1
  let (content, r3) ← readStr r2
  let (ts, r4) ← readU64 r3
  some ({ peer_id := pid, peer_name := nm, content := content, timestamp := ts }, r4)

/-- The loop of `decodeArray` once the length is known. -/
def readArr {α : Type} (f : List Nat → Option (α × List Nat)) :
    Nat → List Nat → Option (List α × List Nat)
  | 0, input => some ([], input)
  | n + 1, input => do
    let (x, r) ← f input
    let (xs, r2) ← readArr f n r
    some (x :: xs, r2)

/-- `decodeArray`: u64 length then that many items. -/
def decodeArray {α : Type} (f : List Nat → Option (α × List Nat)) (input : List Nat) :
    Option (List α × List Nat) := do
  let (len, r) ← readU64 input
  readArr f len r

def decodeWelcome (r : List Nat) : Option (ServerMessage × List Nat) := do
  let (pv, r1) ← readU8 r
  let (pid, r2) ← readStr r1
  let (col, r3) ← readStr r2
  let (tok, r4) ← readStr r3
  let (st, r5) ← readU64 r4
  some (.welcome pv pid col tok st, r5)

def decodeErrorMsg (r : List Nat) : Option (ServerMessage × List Nat) := do
  let (code, r1) ← decodeErrorCode r
  let (msg, r2) ← readStr r1
  let (pid, r3) ← readOpt readStr r2
  some (.error code msg pid, r3)

def decodeProjectJoined (r : List Nat) : Option (ServerMessage × List Nat) := do
  let (pid, r1) ← readStr r
  let (peers, r2) ← decodeArray decodePeerInfo r1
  let (ds, r3) ← readOpt readBytesP r2
  some (.projectJoined pid peers ds, r3)

def decodePeerLeft (r : List Nat) : Option (ServerMessage × List Nat) := do
  let (pid, r1) ← readStr r
  let (peer, r2) ← readStr r1
  let (reason, r3) ← readOpt readStr r2
  some (.peerLeft pid peer reason, r3)

def decodeSyncMessage (r : List Nat) : Option (ServerMessage × List Nat) := do
  let (pid, r1) ← readStr r
  let (dat, r2) ← readBytesP r1
  let (fp, r3) ← readOpt readStr r2
  some (.syncMessage pid dat fp, r3)

def decodeFileContent (r : List Nat) : Option (ServerMessage × List Nat) := do
  let (pid, r1) ← readStr r
  let (fp, r2) ← readStr r1
  let (content, r3) ← readStr r2
  let (lang, r4) ← readStr r3
  let (ver, r5) ← readU64 r4
  some (.fileContent pid fp content lang ver, r5)

def decodeCursorBroadcast (r : List Nat) : Option (ServerMessage × List Nat) := do
  let (pid, r1) ← readStr r
  let (peer, r2) ← readStr r1
  let (nm, r3) ← readStr r2
  let (col, r4) ← readStr r3
  let (fp, r5) ← readStr r4
  let (line, r6) ← readU32 r5
  let (column, r7) ← readU32 r6
  let (sel, r8) ← readOpt (fun i => do
    let (a, ra) ← readU32 i
    let (b, rb) ← readU32 ra
    some ((a, b), rb)) r7
  some (.cursorBroadcast pid peer nm col fp line column sel, r8)

def decodePresenceBroadcast (r : List Nat) : Option (ServerMessage × List Nat) := do
  let (pid, r1) ← readStr r
  let (peer, r2) ← readStr r1
  let (nm, r3) ← readStr r2
  let (st, r4) ← decodePresenceStatus r3
  let (af, r5) ← readOpt readStr r4
  let (la, r6) ← readU64 r5
  some (.presenceBroadcast pid peer nm st af la, r6)

def decodeChatBroadcast (r : List Nat) : Option (ServerMessage × List Nat) := do
  let (pid, r1) ← readStr r
  let (peer, r2) ← readStr r1
  let (nm, r3) ← readStr r2
  let (content, r4) ← readStr r3
  let (ts, r5) ← readU64 r4
  some (.chatBroadcast pid peer nm content ts, r5)

def decodeVoiceToken (r : List Nat) : Option (ServerMessage × List Nat) := do
  let (pid, r1) ← readStr r
  let (tok, r2) ← readStr r1
  let (room, r3) ← readStr r2
  let (url, r4) ← readStr r3
  some (.voiceToken pid tok room url, r4)

def decodeStats (r : List Nat) : Option (ServerMessage × List Nat) := do
  let (ap, r1) ← readU32 r
  let (pe, r2) ← readU32 r1
  let (up, r3) ← readU64 r2
  some (.stats ap pe up, r3)

/-- `decodeServerPayload`: variant dispatch; unknown variants throw. The
decoder ignores trailing bytes, as the source does. -/
def decodeServerPayload (input : List Nat) : Option ServerMessage := do
  let (v, r) ← readVariant input
  let (msg, _) ← (match v with
    | 0 => decodeWelcome r
    | 1 => decodeErrorMsg r
    | 2 => do
      let (reason, r1) ← readOpt readStr r
      some (ServerMessage.goodbye reason, r1)
    | 3 => decodeProjectJoined r
    | 4 => do
      let (pid, r1) ← readStr r
      let (peer, r2) ← decodePeerInfo r1
      some (ServerMessage.peerJoined pid peer, r2)
    | 5 => do
      let (pid, r1) ← readStr r
      some (ServerMessage.projectLeft pid, r1)
    | 6 => decodePeerLeft r
    | 7 => decodeSyncMessage r
    | 8 => do
      let (pid, r1) ← readStr r
      some (ServerMessage.syncComplete pid, r1)
    | 9 => decodeFileContent r
    | 10 => do
      let (pid, r1) ← readStr r
      let (fp, r2) ← readStr r1
      some (ServerMessage.fileNotFound pid fp, r2)
    | 11 => decodeCursorBroadcast r
    | 12 => decodePresenceBroadcast r
    | 13 => decodeChatBroadcast r
    | 14 => do
      let (pid, r1) ← readStr r
      let (msgs, r2) ← decodeArray decodeChatHistoryItem r1
      some (ServerMessage.chatHistory pid msgs, r2)
    | 15 => decodeVoiceToken r
    | 16 => do
      let (ts, r1) ← readU64 r
      let (st, r2) ← readU64 r1
      some (ServerMessage.pong ts st, r2)
    | 17 => decodeStats r
    | _ => none)
  some msg

/-- Decoder failures of `SyncProtocol.decodeServer`, by the error message
thrown. -/
inductive DecodeErr
  | tooShort
  | versionMismatch (got : Nat)
  | shortRead (expected got : Nat)
  | payloadError
deriving DecidableEq, Repr

/-- `SyncProtocol.decodeServer`: 5 header bytes, version check, u24
big-endian length, take exactly that many payload bytes, decode. There is
no check of the declared length against `MAX_MESSAGE_SIZE`. -/
def decodeServer (bytes : List Nat) : Except DecodeErr ServerMessage :=
  match bytes with
  | v :: _t :: l2 :: l1 :: l0 :: rest =>
    if v ≠ 1 then .error (.versionMismatch v)
    else
      let payloadLen := l2 * 65536 + l1 * 256 + l0
      if rest.length < payloadLen then .error (.shortRead (5 + payloadLen) (5 + rest.length))
      else
        match decodeServerPayload (rest.take payloadLen) with
        | some msg => .ok msg
        | none => .error .payloadError
  | _ => .error .tooShort

/-- The declared u24 payload length of a frame (big-endian bytes 2..4). -/
def declaredLen (bytes : List Nat) : Nat :=
  match bytes with
  | _ :: _ :: l2 :: l1 :: l0 :: _ => l2 * 65536 + l1 * 256 + l0
  | _ => 0

/-
  The server half of the codec (its `decode_client` and `encode_server`)
  lives in the Rust server (rustafrica/server/src/sync/protocol.rs), which
  is not part of this source tree. It is modelled from the spec below:
  §4.1 (frame: `[0x01][type:u8][len:u24 big-endian][payload]`, the decoder
  validates `version == 1` and `payload_len ≤ MAX_PAYLOAD`), §4.2 (bincode
  structural encoding) and the §6.2 tag tables, whose field orders agree
  with `encodeClientPayload` / `decodeServerPayload` above.
-/

/-- Modelled from the spec: the §7 protocol error classes a frame decode
can produce (`VersionMismatch` / `InvalidMessage`); short reads are fatal
to the Connection (§4.1). -/
inductive SpecDecodeErr
  | versionMismatch
  | invalidMessage
  | shortRead
deriving DecidableEq, Repr

/-- Modelled from the spec: `MAX_PAYLOAD` = 16 MiB − 5 (§3 Frame). -/
def MAX_PAYLOAD : Nat := MAX_MESSAGE_SIZE - 5

def decodeHello (r : List Nat) : Option (ClientMessage × List Nat) := do
  let (pv, r1) ← readU8 r
  let (cid, r2) ← readOpt readStr r1
  let (cname, r3) ← readStr r2
  let (tok, r4) ← readOpt readStr r3
  some (.hello pv cid cname tok, r4)

def decodeCursorUpdate (r : List Nat) : Option (ClientMessage × List Nat) := do
  let (pid, r1) ← readStr r
  let (fp, r2) ← readStr r1
  let (line, r3) ← readU32 r2
  let (col, r4) ← readU32 r3
  let (sel, r5) ← readOpt (fun i => do
    let (a, ra) ← readU32 i
    let (b, rb) ← readU32 ra
    some ((a, b), rb)) r4
  some (.cursorUpdate pid fp line col sel, r5)

def decodePresenceUpdate (r : List Nat) : Option (ClientMessage × List Nat) := do
  let (pid, r1) ← readStr r
  let (st, r2) ← decodePresenceStatus r1
  let (af, r3) ← readOpt readStr r2
  some (.presenceUpdate pid st af, r3)

/-- Modelled from the spec: `decode_client` — §6.2 client tag table with
the §4.2 structural encoding; unknown tags fail. -/
def decodeClientPayload (input : List Nat) : Option ClientMessage := do
  let (v, r) ← readVariant input
  let (msg, _) ← (match v with
    | 0 => decodeHello r
    | 1 => do
      let (reason, r1) ← readOpt readStr r
      some (ClientMessage.goodbye reason, r1)
    | 2 => do
      let (pid, r1) ← readStr r
      let (rs, r2) ← readBool r1
      some (ClientMessage.joinProject pid rs, r2)
    | 3 => do
      let (pid, r1) ← readStr r
      some (ClientMessage.leaveProject pid, r1)
    | 4 => do
      let (pid, r1) ← readStr r
      let (dat, r2) ← readBytesP r1
      some (ClientMessage.syncMessage pid dat, r2)
    | 5 => do
      let (pid, r1) ← readStr r
      some (ClientMessage.syncRequest pid, r1)
    | 6 => do
      let (pid, r1) ← readStr r
      let (fp, r2) ← readStr r1
      some (ClientMessage.openFile pid fp, r2)
    | 7 => do
      let (pid, r1) ← readStr r
      let (fp, r2) ← readStr r1
      some (ClientMessage.closeFile pid fp, r2)
    | 8 => decodeCursorUpdate r
    | 9 => decodePresenceUpdate r
    | 10 => do
      let (pid, r1) ← readStr r
      let (content, r2) ← readStr r1
      some (ClientMessage.chatMessage pid content, r2)
    | 11 => do
      let (pid, r1) ← readStr r
      some (ClientMessage.voiceJoin pid, r1)
    | 12 => do
      let (pid, r1) ← readStr r
      some (ClientMessage.voiceLeave pid, r1)
    | 13 => do
      let (ts, r1) ← readU64 r
      some (ClientMessage.ping ts, r1)
    | _ => none)
  some msg

/-- Modelled from the spec: the server-side frame decoder (§4.1): 5 header
bytes, `version == 1` else `VersionMismatch`, `payload_len ≤ MAX_PAYLOAD`
else `InvalidMessage`, then exactly `payload_len` payload bytes. -/
def decodeClientFrame (bytes : List Nat) : Except SpecDecodeErr ClientMessage :=
  match bytes with
  | v :: _t :: l2 :: l1 :: l0 :: rest =>
    if v ≠ 1 then .error .versionMismatch
    else
      let payloadLen := l2 * 65536 + l1 * 256 + l0
      if payloadLen > MAX_PAYLOAD then .error .invalidMessage
      else if rest.length < payloadLen then .error .shortRead
      else
        match decodeClientPayload (rest.take payloadLen) with
        | some m => .ok m
        | none => .error .invalidMessage
  | _ => .error .shortRead

def encodePeerInfo (p : PeerInfo) : List Nat :=
  strBytes p.peer_id ++ strBytes p.name ++ strBytes p.color ++
    encodePresenceStatus p.status ++ optBytes strBytes p.active_file ++
    u64Bytes p.joined_at

def encodeChatHistoryItem (c : ChatHistoryItem) : List Nat :=
  strBytes c.peer_id ++ strBytes c.peer_name ++ strBytes c.content ++
    u64Bytes c.timestamp

def encodeArray {α : Type} (f : α → List Nat) (xs : List α) : List Nat :=
  u64Bytes xs.length ++ (xs.map f).flatten

/-- Modelled from the spec: the §6.2 server tag of a message. -/
def serverTag : ServerMessage → Nat
  | .welcome .. => 0
  | .error .. => 1
  | .goodbye .. => 2
  | .projectJoined .. => 3
  | .peerJoined .. => 4
  | .projectLeft .. => 5
  | .peerLeft .. => 6
  | .syncMessage .. => 7
  | .syncComplete .. => 8
  | .fileContent .. => 9
  | .fileNotFound .. => 10
  | .cursorBroadcast .. => 11
  | .presenceBroadcast .. => 12
  | .chatBroadcast .. => 13
  | .chatHistory .. => 14
  | .voiceToken .. => 15
  | .pong .. => 16
  | .stats .. => 17

/-- Modelled from the spec: `encode_server` — §6.2 server tag table with
the §4.2 structural encoding (field orders as `decodeServerPayload`
reads them). -/
def encodeServerPayload : ServerMessage → List Nat
  | .welcome pv pid col tok st =>
    variantBytes 0 ++ u8Byte pv ++ strBytes pid ++ strBytes col ++ strBytes tok ++
      u64Bytes st
  | .error code msg pid =>
    variantBytes 1 ++ u16Bytes code ++ strBytes msg ++ optBytes strBytes pid
  | .goodbye reason => variantBytes 2 ++ optBytes strBytes reason
  | .projectJoined pid peers ds =>
    variantBytes 3 ++ strBytes pid ++ encodeArray encodePeerInfo peers ++
      optBytes bytesBytes ds
  | .peerJoined pid peer => variantBytes 4 ++ strBytes pid ++ encodePeerInfo peer
  | .projectLeft pid => variantBytes 5 ++ strBytes pid
  | .peerLeft pid peer reason =>
    variantBytes 6 ++ strBytes pid ++ strBytes peer ++ optBytes strBytes reason
  | .syncMessage pid dat fp =>
    variantBytes 7 ++ strBytes pid ++ bytesBytes dat ++ optBytes strBytes fp
  | .syncComplete pid => variantBytes 8 ++ strBytes pid
  | .fileContent pid fp content lang ver =>
    variantBytes 9 ++ strBytes pid ++ strBytes fp ++ strBytes content ++
      strBytes lang ++ u64Bytes ver
  | .fileNotFound pid fp => variantBytes 10 ++ strBytes pid ++ strBytes fp
  | .cursorBroadcast pid peer nm col fp line column sel =>
    variantBytes 11 ++ strBytes pid ++ strBytes peer ++ strBytes nm ++
      strBytes col ++ strBytes fp ++ u32Bytes line ++ u32Bytes column ++
      optBytes (fun v => u32Bytes v.1 ++ u32Bytes v.2) sel
  | .presenceBroadcast pid peer nm st af la =>
    variantBytes 12 ++ strBytes pid ++ strBytes peer ++ strBytes nm ++
      encodePresenceStatus st ++ optBytes strBytes af ++ u64Bytes la
  | .chatBroadcast pid peer nm content ts =>
    variantBytes 13 ++ strBytes pid ++ strBytes peer ++ strBytes nm ++
      strBytes content ++ u64Bytes ts
  | .chatHistory pid msgs =>
    variantBytes 14 ++ strBytes pid ++ encodeArray encodeChatHistoryItem msgs
  | .voiceToken pid tok room url =>
    variantBytes 15 ++ strBytes pid ++ strBytes tok ++ strBytes room ++ strBytes url
  | .pong ts st => variantBytes 16 ++ u64Bytes ts ++ u64Bytes st
  | .stats ap pe up => variantBytes 17 ++ u32Bytes ap ++ u32Bytes pe ++ u64Bytes up

/-- Modelled from the spec: the server-side frame encoder (§4.1/§6.1):
`[0x01][tag][len:u24 big-endian][payload]` with
`len(payload) ≤ 16 MiB − 5` enforced. -/
def encodeServerFrame (m : ServerMessage) : Option (List Nat) :=
  let payload := encodeServerPayload m
  if payload.length > MAX_PAYLOAD then none
  else
    some (1 :: serverTag m ::
      (payload.length / 65536 % 256) :: (payload.length / 256 % 256) ::
      (payload.length % 256) :: payload)

end Proto

/-
  ===========================================================================
  Codec round-trip lemmas.
  ===========================================================================
-/

namespace Proto

theorem readU8_self {v : Nat} (rest : List Nat) (h : v < 256) :
    readU8 (u8Byte v ++ rest) = some (v, rest) := by
  rw [u8Byte, List.singleton_append, readU8, Nat.mod_eq_of_lt h]

theorem readU16_self {v : Nat} (rest : List Nat) (h : v < 65536) :
    readU16 (u16Bytes v ++ rest) = some (v, rest) := by
  rw [u16Bytes]
  rw [show ([v % 256, v / 256 % 256] ++ rest) = v % 256 :: v / 256 % 256 :: rest from rfl]
  rw [readU16]
  congr 2
  omega

theorem readU32_self {v : Nat} (rest : List Nat) (h : v < 4294967296) :
    readU32 (u32Bytes v ++ rest) = some (v, rest) := by
  rw [u32Bytes]
  rw [show ([v % 256, v / 256 % 256, v / 65536 % 256, v / 16777216 % 256] ++ rest) =
    v % 256 :: v / 256 % 256 :: v / 65536 % 256 :: v / 16777216 % 256 :: rest from rfl]
  rw [readU32]
  congr 2
  omega

theorem readU64_self {v : Nat} (rest : List Nat) (h : v < 18446744073709551616) :
    readU64 (u64Bytes v ++ rest) = some (v, rest) := by
  rw [u64Bytes, readU64, List.append_assoc]
  rw [readU32_self _ (Nat.mod_lt _ (by omega))]
  simp only [Option.bind_eq_bind, Option.some_bind]
  rw [readU32_self _ (by omega)]
  simp only [Option.some_bind]
  congr 2
  omega

theorem readBool_self (b : Bool) (rest : List Nat) :
    readBool (boolBytes b ++ rest) = some (b, rest) := by
  cases b <;> simp [readBool, boolBytes, readU8]

theorem readVariant_self {i : Nat} (rest : List Nat) (h : i < 4294967296) :
    readVariant (variantBytes i ++ rest) = some (i, rest) :=
  readU32_self rest h

theorem readStr_self {s : ByteStr} (rest : List Nat) (h : s.length < 18446744073709551616) :
    readStr (strBytes s ++ rest) = some (s, rest) := by
  rw [strBytes, readStr, List.append_assoc]
  rw [readU64_self _ h]
  simp only [Option.bind_eq_bind, Option.some_bind]
  rw [if_neg (by simp)]
  rw [List.take_left, List.drop_left]

theorem readBytesP_self {s : List Nat} (rest : List Nat)
    (h : s.length < 18446744073709551616) :
    readBytesP (bytesBytes s ++ rest) = some (s, rest) :=
  readStr_self rest h

theorem readOpt_none {α : Type} (f : List Nat → Option (α × List Nat))
    (g : α → List Nat) (rest : List Nat) :
    readOpt f (optBytes g none ++ rest) = some (none, rest) := by
  rw [optBytes, List.singleton_append, readOpt, readU8]
  simp

theorem readOpt_some {α : Type} (f : List Nat → Option (α × List Nat))
    (g : α → List Nat) (v : α) (rest : List Nat) (h : f (g v ++ rest) = some (v, rest)) :
    readOpt f (optBytes g (some v) ++ rest) = some (some v, rest) := by
  rw [optBytes, List.cons_append, readOpt, readU8]
  simp only [Option.bind_eq_bind, Option.some_bind]
  rw [if_neg (by omega), h]
  simp

theorem decodePresenceStatus_self (st : PresenceStatus) (rest : List Nat) :
    decodePresenceStatus (encodePresenceStatus st ++ rest) = some (st, rest) := by
  cases st <;>
    (rw [encodePresenceStatus, decodePresenceStatus,
      readVariant_self _ (by norm_num)]
     simp)

theorem readArr_self {α : Type} (f : List Nat → Option (α × List Nat))
    (g : α → List Nat) (xs : List α) (rest : List Nat)
    (hf : ∀ x ∈ xs, ∀ r, f (g x ++ r) = some (x, r)) :
    readArr f xs.length ((xs.map g).flatten ++ rest) = some (xs, rest) := by
  induction xs with
  | nil => simp [readArr]
  | cons x t ih =>
    rw [List.length_cons, List.map_cons, List.flatten_cons, List.append_assoc]
    rw [readArr]
    rw [hf x (List.mem_cons_self _ _)]
    simp only [Option.bind_eq_bind, Option.some_bind]
    rw [ih (fun y hy r => hf y (List.mem_cons_of_mem _ hy) r)]
    simp

theorem decodeArray_self {α : Type} (f : List Nat → Option (α × List Nat))
    (g : α → List Nat) (xs : List α) (rest : List Nat)
    (hlen : xs.length < 18446744073709551616)
    (hf : ∀ x ∈ xs, ∀ r, f (g x ++ r) = some (x, r)) :
    decodeArray f (encodeArray g xs ++ rest) = some (xs, rest) := by
  rw [encodeArray, decodeArray, List.append_assoc]
  rw [readU64_self _ hlen]
  simp only [Option.bind_eq_bind, Option.some_bind]
  exact readArr_self f g xs rest hf

end Proto

namespace Proto

/-- A protocol string whose u64 length prefix round-trips (JavaScript
numbers further cap this at 2^53, far above any real message). -/
def wfStr (s : ByteStr) : Prop := s.length < 18446744073709551616

def wfOptStr : Option ByteStr → Prop
  | none => True
  | some s => wfStr s

def wfSel : Option (Nat × Nat) → Prop
  | none => True
  | some p => p.1 < 4294967296 ∧ p.2 < 4294967296

/-- Field ranges under which the bincode encoding of a client message is
lossless: u8/u32/u64 fields in range and string/byte fields of
representable length. -/
def wfClient : ClientMessage → Prop
  | .hello pv cid cname tok => pv < 256 ∧ wfOptStr cid ∧ wfStr cname ∧ wfOptStr tok
  | .goodbye reason => wfOptStr reason
  | .joinProject pid _ => wfStr pid
  | .leaveProject pid => wfStr pid
  | .syncMessage pid dat => wfStr pid ∧ wfStr dat
  | .syncRequest pid => wfStr pid
  | .openFile pid fp => wfStr pid ∧ wfStr fp
  | .closeFile pid fp => wfStr pid ∧ wfStr fp
  | .cursorUpdate pid fp line col sel =>
    wfStr pid ∧ wfStr fp ∧ line < 4294967296 ∧ col < 4294967296 ∧ wfSel sel
  | .presenceUpdate pid _ af => wfStr pid ∧ wfOptStr af
  | .chatMessage pid content => wfStr pid ∧ wfStr content
  | .voiceJoin pid => wfStr pid
  | .voiceLeave pid => wfStr pid
  | .ping ts => ts < 18446744073709551616

theorem readOptStr_self (o : Option ByteStr) (rest : List Nat) (h : wfOptStr o) :
    readOpt readStr (optBytes strBytes o ++ rest) = some (o, rest) := by
  cases o with
  | none => exact readOpt_none readStr strBytes rest
  | some s => exact readOpt_some readStr strBytes s rest (readStr_self rest h)

theorem readOptBytes_self (o : Option (List Nat)) (rest : List Nat)
    (h : match o with | none => True | some s => wfStr s) :
    readOpt readBytesP (optBytes bytesBytes o ++ rest) = some (o, rest) := by
  cases o with
  | none => exact readOpt_none readBytesP bytesBytes rest
  | some s => exact readOpt_some readBytesP bytesBytes s rest (readBytesP_self rest h)

theorem readOptSel_self (o : Option (Nat × Nat)) (rest : List Nat) (h : wfSel o) :
    readOpt (fun i => do
      let (a, ra) ← readU32 i
      let (b, rb) ← readU32 ra
      some ((a, b), rb)) (optBytes (fun v => u32Bytes v.1 ++ u32Bytes v.2) o ++ rest) =
      some (o, rest) := by
  cases o with
  | none => exact readOpt_none _ _ rest
  | some p =>
    obtain ⟨h1, h2⟩ := h
    refine readOpt_some _ _ p rest ?_
    simp only [List.append_assoc]
    rw [readU32_self _ h1]
    simp only [Option.bind_eq_bind, Option.some_bind]
    rw [readU32_self _ h2]
    simp

/-- The spec-modelled client decoder inverts `encodeClientPayload` on
well-formed messages, for any trailing bytes. -/
theorem decodeClientPayload_round (m : ClientMessage) (extra : List Nat)
    (h : wfClient m) :
    decodeClientPayload (encodeClientPayload m ++ extra) = some m := by
  cases m with
  | hello pv cid cname tok =>
    obtain ⟨h1, h2, h3, h4⟩ := h
    rw [encodeClientPayload, decodeClientPayload]
    simp only [List.append_assoc]
    rw [readVariant_self _ (by norm_num)]
    simp only [Option.bind_eq_bind, Option.some_bind]
    rw [decodeHello, readU8_self _ h1]
    simp only [Option.bind_eq_bind, Option.some_bind]
    rw [readOptStr_self _ _ h2]
    simp only [Option.some_bind]
    rw [readStr_self _ h3]
    simp only [Option.some_bind]
    rw [readOptStr_self _ _ h4]
    simp
  | goodbye reason =>
    rw [encodeClientPayload, decodeClientPayload]
    simp only [List.append_assoc]
    rw [readVariant_self _ (by norm_num)]
    simp only [Option.bind_eq_bind, Option.some_bind]
    rw [readOptStr_self _ _ h]
    simp
  | joinProject pid rs =>
    rw [encodeClientPayload, decodeClientPayload]
    simp only [List.append_assoc]
    rw [readVariant_self _ (by norm_num)]
    simp only [Option.bind_eq_bind, Option.some_bind]
    rw [readStr_self _ h]
    simp only [Option.some_bind]
    rw [readBool_self]
    simp
  | leaveProject pid =>
    rw [encodeClientPayload, decodeClientPayload]
    simp only [List.append_assoc]
    rw [readVariant_self _ (by norm_num)]
    simp only [Option.bind_eq_bind, Option.some_bind]
    rw [readStr_self _ h]
    simp
  | syncMessage pid dat =>
    obtain ⟨h1, h2⟩ := h
    rw [encodeClientPayload, decodeClientPayload]
    simp only [List.append_assoc]
    rw [readVariant_self _ (by norm_num)]
    simp only [Option.bind_eq_bind, Option.some_bind]
    rw [readStr_self _ h1]
    simp only [Option.some_bind]
    rw [readBytesP_self _ h2]
    simp
  | syncRequest pid =>
    rw [encodeClientPayload, decodeClientPayload]
    simp only [List.append_assoc]
    rw [readVariant_self _ (by norm_num)]
    simp only [Option.bind_eq_bind, Option.some_bind]
    rw [readStr_self _ h]
    simp
  | openFile pid fp =>
    obtain ⟨h1, h2⟩ := h
    rw [encodeClientPayload, decodeClientPayload]
    simp only [List.append_assoc]
    rw [readVariant_self _ (by norm_num)]
    simp only [Option.bind_eq_bind, Option.some_bind]
    rw [readStr_self _ h1]
    simp only [Option.some_bind]
    rw [readStr_self _ h2]
    simp
  | closeFile pid fp =>
    obtain ⟨h1, h2⟩ := h
    rw [encodeClientPayload, decodeClientPayload]
    simp only [List.append_assoc]
    rw [readVariant_self _ (by norm_num)]
    simp only [Option.bind_eq_bind, Option.some_bind]
    rw [readStr_self _ h1]
    simp only [Option.some_bind]
    rw [readStr_self _ h2]
    simp
  | cursorUpdate pid fp line col sel =>
    obtain ⟨h1, h2, h3, h4, h5⟩ := h
    rw [encodeClientPayload, decodeClientPayload]
    simp only [List.append_assoc]
    rw [readVariant_self _ (by norm_num)]
    simp only [Option.bind_eq_bind, Option.some_bind]
    rw [decodeCursorUpdate, readStr_self _ h1]
    simp only [Option.bind_eq_bind, Option.some_bind]
    rw [readStr_self _ h2]
    simp only [Option.some_bind]
    rw [readU32_self _ h3]
    simp only [Option.some_bind]
    rw [readU32_self _ h4]
    simp only [Option.some_bind]
    cases sel with
    | none =>
      rw [optBytes, List.singleton_append, readOpt, readU8]
      simp
    | some p =>
      obtain ⟨hp1, hp2⟩ := h5
      rw [optBytes, List.cons_append, readOpt, readU8]
      simp only [Option.bind_eq_bind, Option.some_bind]
      rw [if_neg (by omega)]
      simp only [List.append_assoc]
      rw [readU32_self _ hp1]
      simp only [Option.bind_eq_bind, Option.some_bind]
      rw [readU32_self _ hp2]
      simp
  | presenceUpdate pid st af =>
    obtain ⟨h1, h2⟩ := h
    rw [encodeClientPayload, decodeClientPayload]
    simp only [List.append_assoc]
    rw [readVariant_self _ (by norm_num)]
    simp only [Option.bind_eq_bind, Option.some_bind]
    rw [decodePresenceUpdate, readStr_self _ h1]
    simp only [Option.bind_eq_bind, Option.some_bind]
    rw [decodePresenceStatus_self]
    simp only [Option.some_bind]
    rw [readOptStr_self _ _ h2]
    simp
  | chatMessage pid content =>
    obtain ⟨h1, h2⟩ := h
    rw [encodeClientPayload, decodeClientPayload]
    simp only [List.append_assoc]
    rw [readVariant_self _ (by norm_num)]
    simp only [Option.bind_eq_bind, Option.some_bind]
    rw [readStr_self _ h1]
    simp only [Option.some_bind]
    rw [readStr_self _ h2]
    simp
  | voiceJoin pid =>
    rw [encodeClientPayload, decodeClientPayload]
    simp only [List.append_assoc]
    rw [readVariant_self _ (by norm_num)]
    simp only [Option.bind_eq_bind, Option.some_bind]
    rw [readStr_self _ h]
    simp
  | voiceLeave pid =>
    rw [encodeClientPayload, decodeClientPayload]
    simp only [List.append_assoc]
    rw [readVariant_self _ (by norm_num)]
    simp only [Option.bind_eq_bind, Option.some_bind]
    rw [readStr_self _ h]
    simp
  | ping ts =>
    rw [encodeClientPayload, decodeClientPayload]
    simp only [List.append_assoc]
    rw [readVariant_self _ (by norm_num)]
    simp only [Option.bind_eq_bind, Option.some_bind]
    rw [readU64_self _ h]
    simp

end Proto

namespace Proto

def wfPeerInfo (p : PeerInfo) : Prop :=
  wfStr p.peer_id ∧ wfStr p.name ∧ wfStr p.color ∧ wfOptStr p.active_file ∧
  p.joined_at < 18446744073709551616

def wfChatItem (c : ChatHistoryItem) : Prop :=
  wfStr c.peer_id ∧ wfStr c.peer_name ∧ wfStr c.content ∧
  c.timestamp < 18446744073709551616

/-- Field ranges under which the bincode encoding of a server message is
lossless. -/
def wfServer : ServerMessage → Prop
  | .welcome pv pid col tok st =>
    pv < 256 ∧ wfStr pid ∧ wfStr col ∧ wfStr tok ∧ st < 18446744073709551616
  | .error code msg pid => code < 65536 ∧ wfStr msg ∧ wfOptStr pid
  | .goodbye reason => wfOptStr reason
  | .projectJoined pid peers ds =>
    wfStr pid ∧ (∀ p ∈ peers, wfPeerInfo p) ∧ peers.length < 18446744073709551616 ∧
    (match ds with | none => True | some b => wfStr b)
  | .peerJoined pid peer => wfStr pid ∧ wfPeerInfo peer
  | .projectLeft pid => wfStr pid
  | .peerLeft pid peer reason => wfStr pid ∧ wfStr peer ∧ wfOptStr reason
  | .syncMessage pid dat fp => wfStr pid ∧ wfStr dat ∧ wfOptStr fp
  | .syncComplete pid => wfStr pid
  | .fileContent pid fp content lang ver =>
    wfStr pid ∧ wfStr fp ∧ wfStr content ∧ wfStr lang ∧ ver < 18446744073709551616
  | .fileNotFound pid fp => wfStr pid ∧ wfStr fp
  | .cursorBroadcast pid peer nm col fp line column sel =>
    wfStr pid ∧ wfStr peer ∧ wfStr nm ∧ wfStr col ∧ wfStr fp ∧
    line < 4294967296 ∧ column < 4294967296 ∧ wfSel sel
  | .presenceBroadcast pid peer nm _ af la =>
    wfStr pid ∧ wfStr peer ∧ wfStr nm ∧ wfOptStr af ∧ la < 18446744073709551616
  | .chatBroadcast pid peer nm content ts =>
    wfStr pid ∧ wfStr peer ∧ wfStr nm ∧ wfStr content ∧ ts < 18446744073709551616
  | .chatHistory pid msgs =>
    wfStr pid ∧ (∀ c ∈ msgs, wfChatItem c) ∧ msgs.length < 18446744073709551616
  | .voiceToken pid tok room url => wfStr pid ∧ wfStr tok ∧ wfStr room ∧ wfStr url
  | .pong ts st => ts < 18446744073709551616 ∧ st < 18446744073709551616
  | .stats ap pe up => ap < 4294967296 ∧ pe < 4294967296 ∧ up < 18446744073709551616

theorem decodePeerInfo_self (p : PeerInfo) (rest : List Nat) (h : wfPeerInfo p) :
    decodePeerInfo (encodePeerInfo p ++ rest) = some (p, rest) := by
  obtain ⟨h1, h2, h3, h4, h5⟩ := h
  rw [encodePeerInfo, decodePeerInfo]
  simp only [List.append_assoc]
  rw [readStr_self _ h1]
  simp only [Option.bind_eq_bind, Option.some_bind]
  rw [readStr_self _ h2]
  simp only [Option.some_bind]
  rw [readStr_self _ h3]
  simp only [Option.some_bind]
  rw [decodePresenceStatus_self]
  simp only [Option.some_bind]
  rw [readOptStr_self _ _ h4]
  simp only [Option.some_bind]
  rw [readU64_self _ h5]
  simp

theorem decodeChatHistoryItem_self (c : ChatHistoryItem) (rest : List Nat)
    (h : wfChatItem c) :
    decodeChatHistoryItem (encodeChatHistoryItem c ++ rest) = some (c, rest) := by
  obtain ⟨h1, h2, h3, h4⟩ := h
  rw [encodeChatHistoryItem, decodeChatHistoryItem]
  simp only [List.append_assoc]
  rw [readStr_self _ h1]
  simp only [Option.bind_eq_bind, Option.some_bind]
  rw [readStr_self _ h2]
  simp only [Option.some_bind]
  rw [readStr_self _ h3]
  simp only [Option.some_bind]
  rw [readU64_self _ h4]
  simp

set_option maxHeartbeats 2000000 in
/-- The source server decoder inverts the spec-modelled `encode_server`
payload on well-formed messages, for any trailing bytes. -/
theorem decodeServerPayload_round (m : ServerMessage) (extra : List Nat)
    (h : wfServer m) :
    decodeServerPayload (encodeServerPayload m ++ extra) = some m := by
  cases m with
  | welcome pv pid col tok st =>
    obtain ⟨h1, h2, h3, h4, h5⟩ := h
    rw [encodeServerPayload, decodeServerPayload]
    simp only [List.append_assoc]
    rw [readVariant_self _ (by norm_num)]
    simp only [Option.bind_eq_bind, Option.some_bind]
    rw [decodeWelcome, readU8_self _ h1]
    simp only [Option.bind_eq_bind, Option.some_bind]
    rw [readStr_self _ h2]
    simp only [Option.some_bind]
    rw [readStr_self _ h3]
    simp only [Option.some_bind]
    rw [readStr_self _ h4]
    simp only [Option.some_bind]
    rw [readU64_self _ h5]
    simp
  | error code msg pid =>
    obtain ⟨h1, h2, h3⟩ := h
    rw [encodeServerPayload, decodeServerPayload]
    simp only [List.append_assoc]
    rw [readVariant_self _ (by norm_num)]
    simp only [Option.bind_eq_bind, Option.some_bind]
    rw [decodeErrorMsg, decodeErrorCode, readU16_self _ h1]
    simp only [Option.bind_eq_bind, Option.some_bind]
    rw [readStr_self _ h2]
    simp only [Option.some_bind]
    rw [readOptStr_self _ _ h3]
    simp
  | goodbye reason =>
    rw [encodeServerPayload, decodeServerPayload]
    simp only [List.append_assoc]
    rw [readVariant_self _ (by norm_num)]
    simp only [Option.bind_eq_bind, Option.some_bind]
    rw [readOptStr_self _ _ h]
    simp
  | projectJoined pid peers ds =>
    obtain ⟨h1, h2, h3, h4⟩ := h
    rw [encodeServerPayload, decodeServerPayload]
    simp only [List.append_assoc]
    rw [readVariant_self _ (by norm_num)]
    simp only [Option.bind_eq_bind, Option.some_bind]
    rw [decodeProjectJoined, readStr_self _ h1]
    simp only [Option.bind_eq_bind, Option.some_bind]
    rw [decodeArray_self decodePeerInfo encodePeerInfo peers _ h3
      (fun p hp r => decodePeerInfo_self p r (h2 p hp))]
    simp only [Option.some_bind]
    rw [readOptBytes_self _ _ h4]
    simp
  | peerJoined pid peer =>
    obtain ⟨h1, h2⟩ := h
    rw [encodeServerPayload, decodeServerPayload]
    simp only [List.append_assoc]
    rw [readVariant_self _ (by norm_num)]
    simp only [Option.bind_eq_bind, Option.some_bind]
    rw [readStr_self _ h1]
    simp only [Option.some_bind]
    rw [decodePeerInfo_self _ _ h2]
    simp
  | projectLeft pid =>
    rw [encodeServerPayload, decodeServerPayload]
    simp only [List.append_assoc]
    rw [readVariant_self _ (by norm_num)]
    simp only [Option.bind_eq_bind, Option.some_bind]
    rw [readStr_self _ h]
    simp
  | peerLeft pid peer reason =>
    obtain ⟨h1, h2, h3⟩ := h
    rw [encodeServerPayload, decodeServerPayload]
    simp only [List.append_assoc]
    rw [readVariant_self _ (by norm_num)]
    simp only [Option.bind_eq_bind, Option.some_bind]
    rw [decodePeerLeft, readStr_self _ h1]
    simp only [Option.bind_eq_bind, Option.some_bind]
    rw [readStr_self _ h2]
    simp only [Option.some_bind]
    rw [readOptStr_self _ _ h3]
    simp
  | syncMessage pid dat fp =>
    obtain ⟨h1, h2, h3⟩ := h
    rw [encodeServerPayload, decodeServerPayload]
    simp only [List.append_assoc]
    rw [readVariant_self _ (by norm_num)]
    simp only [Option.bind_eq_bind, Option.some_bind]
    rw [decodeSyncMessage, readStr_self _ h1]
    simp only [Option.bind_eq_bind, Option.some_bind]
    rw [readBytesP_self _ h2]
    simp only [Option.some_bind]
    rw [readOptStr_self _ _ h3]
    simp
  | syncComplete pid =>
    rw [encodeServerPayload, decodeServerPayload]
    simp only [List.append_assoc]
    rw [readVariant_self _ (by norm_num)]
    simp only [Option.bind_eq_bind, Option.some_bind]
    rw [readStr_self _ h]
    simp
  | fileContent pid fp content lang ver =>
    obtain ⟨h1, h2, h3, h4, h5⟩ := h
    rw [encodeServerPayload, decodeServerPayload]
    simp only [List.append_assoc]
    rw [readVariant_self _ (by norm_num)]
    simp only [Option.bind_eq_bind, Option.some_bind]
    rw [decodeFileContent, readStr_self _ h1]
    simp only [Option.bind_eq_bind, Option.some_bind]
    rw [readStr_self _ h2]
    simp only [Option.some_bind]
    rw [readStr_self _ h3]
    simp only [Option.some_bind]
    rw [readStr_self _ h4]
    simp only [Option.some_bind]
    rw [readU64_self _ h5]
    simp
  | fileNotFound pid fp =>
    obtain ⟨h1, h2⟩ := h
    rw [encodeServerPayload, decodeServerPayload]
    simp only [List.append_assoc]
    rw [readVariant_self _ (by norm_num)]
    simp only [Option.bind_eq_bind, Option.some_bind]
    rw [readStr_self _ h1]
    simp only [Option.some_bind]
    rw [readStr_self _ h2]
    simp
  | cursorBroadcast pid peer nm col fp line column sel =>
    obtain ⟨h1, h2, h3, h4, h5, h6, h7, h8⟩ := h
    rw [encodeServerPayload, decodeServerPayload]
    simp only [List.append_assoc]
    rw [readVariant_self _ (by norm_num)]
    simp only [Option.bind_eq_bind, Option.some_bind]
    rw [decodeCursorBroadcast, readStr_self _ h1]
    simp only [Option.bind_eq_bind, Option.some_bind]
    rw [readStr_self _ h2]
    simp only [Option.some_bind]
    rw [readStr_self _ h3]
    simp only [Option.some_bind]
    rw [readStr_self _ h4]
    simp only [Option.some_bind]
    rw [readStr_self _ h5]
    simp only [Option.some_bind]
    rw [readU32_self _ h6]
    simp only [Option.some_bind]
    rw [readU32_self _ h7]
    simp only [Option.some_bind]
    cases sel with
    | none =>
      rw [optBytes, List.singleton_append, readOpt, readU8]
      simp
    | some p =>
      obtain ⟨hp1, hp2⟩ := h8
      rw [optBytes, List.cons_append, readOpt, readU8]
      simp only [Option.bind_eq_bind, Option.some_bind]
      rw [if_neg (by omega)]
      simp only [List.append_assoc]
      rw [readU32_self _ hp1]
      simp only [Option.bind_eq_bind, Option.some_bind]
      rw [readU32_self _ hp2]
      simp
  | presenceBroadcast pid peer nm st af la =>
    obtain ⟨h1, h2, h3, h4, h5⟩ := h
    rw [encodeServerPayload, decodeServerPayload]
    simp only [List.append_assoc]
    rw [readVariant_self _ (by norm_num)]
    simp only [Option.bind_eq_bind, Option.some_bind]
    rw [decodePresenceBroadcast, readStr_self _ h1]
    simp only [Option.bind_eq_bind, Option.some_bind]
    rw [readStr_self _ h2]
    simp only [Option.some_bind]
    rw [readStr_self _ h3]
    simp only [Option.some_bind]
    rw [decodePresenceStatus_self]
    simp only [Option.some_bind]
    rw [readOptStr_self _ _ h4]
    simp only [Option.some_bind]
    rw [readU64_self _ h5]
    simp
  | chatBroadcast pid peer nm content ts =>
    obtain ⟨h1, h2, h3, h4, h5⟩ := h
    rw [encodeServerPayload, decodeServerPayload]
    simp only [List.append_assoc]
    rw [readVariant_self _ (by norm_num)]
    simp only [Option.bind_eq_bind, Option.some_bind]
    rw [decodeChatBroadcast, readStr_self _ h1]
    simp only [Option.bind_eq_bind, Option.some_bind]
    rw [readStr_self _ h2]
    simp only [Option.some_bind]
    rw [readStr_self _ h3]
    simp only [Option.some_bind]
    rw [readStr_self _ h4]
    simp only [Option.some_bind]
    rw [readU64_self _ h5]
    simp
  | chatHistory pid msgs =>
    obtain ⟨h1, h2, h3⟩ := h
    rw [encodeServerPayload, decodeServerPayload]
    simp only [List.append_assoc]
    rw [readVariant_self _ (by norm_num)]
    simp only [Option.bind_eq_bind, Option.some_bind]
    rw [readStr_self _ h1]
    simp only [Option.some_bind]
    rw [decodeArray_self decodeChatHistoryItem encodeChatHistoryItem msgs _ h3
      (fun c hc r => decodeChatHistoryItem_self c r (h2 c hc))]
    simp
  | voiceToken pid tok room url =>
    obtain ⟨h1, h2, h3, h4⟩ := h
    rw [encodeServerPayload, decodeServerPayload]
    simp only [List.append_assoc]
    rw [readVariant_self _ (by norm_num)]
    simp only [Option.bind_eq_bind, Option.some_bind]
    rw [decodeVoiceToken, readStr_self _ h1]
    simp only [Option.bind_eq_bind, Option.some_bind]
    rw [readStr_self _ h2]
    simp only [Option.some_bind]
    rw [readStr_self _ h3]
    simp only [Option.some_bind]
    rw [readStr_self _ h4]
    simp
  | pong ts st =>
    obtain ⟨h1, h2⟩ := h
    rw [encodeServerPayload, decodeServerPayload]
    simp only [List.append_assoc]
    rw [readVariant_self _ (by norm_num)]
    simp only [Option.bind_eq_bind, Option.some_bind]
    rw [readU64_self _ h1]
    simp only [Option.some_bind]
    rw [readU64_self _ h2]
    simp
  | stats ap pe up =>
    obtain ⟨h1, h2, h3⟩ := h
    rw [encodeServerPayload, decodeServerPayload]
    simp only [List.append_assoc]
    rw [readVariant_self _ (by norm_num)]
    simp only [Option.bind_eq_bind, Option.some_bind]
    rw [decodeStats, readU32_self _ h1]
    simp only [Option.bind_eq_bind, Option.some_bind]
    rw [readU32_self _ h2]
    simp only [Option.some_bind]
    rw [readU64_self _ h3]
    simp

end Proto

namespace Proto

theorem u24_self {p : Nat} (h : p < 16777216) :
    (p / 65536 % 256) * 65536 + (p / 256 % 256) * 256 + p % 256 = p := by
  omega

/-- Every frame `encodeClient` produces decodes back to the message on the
spec-modelled server decoder. -/
theorem decodeClientFrame_encodeClient (m : ClientMessage) (frame : List Nat)
    (hwf : wfClient m) (henc : encodeClient m = some frame) :
    decodeClientFrame frame = .ok m := by
  rw [encodeClient] at henc
  by_cases hlen : (encodeClientPayload m).length + 5 > MAX_MESSAGE_SIZE
  · rw [if_pos hlen] at henc
    exact Option.noConfusion henc
  · rw [if_neg hlen] at henc
    rw [MAX_MESSAGE_SIZE] at hlen
    have hframe := (Option.some.inj henc).symm
    subst hframe
    rw [decodeClientFrame]
    rw [if_neg (show ¬(1 ≠ 1) by omega)]
    have hp : (encodeClientPayload m).length < 16777216 := by omega
    simp only [u24_self hp]
    rw [if_neg (by rw [MAX_PAYLOAD, MAX_MESSAGE_SIZE]; omega)]
    rw [if_neg (by omega)]
    rw [List.take_length]
    rw [show encodeClientPayload m = encodeClientPayload m ++ [] by simp]
    rw [decodeClientPayload_round m [] hwf]

/-- Every frame the spec-modelled server encoder produces decodes back to
the message on the source client decoder. -/
theorem decodeServer_encodeServerFrame (m : ServerMessage) (frame : List Nat)
    (hwf : wfServer m) (henc : encodeServerFrame m = some frame) :
    decodeServer frame = .ok m := by
  rw [encodeServerFrame] at henc
  by_cases hlen : (encodeServerPayload m).length > MAX_PAYLOAD
  · rw [if_pos hlen] at henc
    exact Option.noConfusion henc
  · rw [if_neg hlen] at henc
    rw [MAX_PAYLOAD, MAX_MESSAGE_SIZE] at hlen
    have hframe := (Option.some.inj henc).symm
    subst hframe
    rw [decodeServer]
    rw [if_neg (show ¬(1 ≠ 1) by omega)]
    have hp : (encodeServerPayload m).length < 16777216 := by omega
    simp only [u24_self hp]
    rw [if_neg (by omega)]
    rw [List.take_length]
    rw [show encodeServerPayload m = encodeServerPayload m ++ [] by simp]
    rw [decodeServerPayload_round m [] hwf]

end Proto

/-
  ===========================================================================
  Claim theorems.
  ===========================================================================
-/

theorem getKey_delKey_self {α : Type} (m : List (Str × α)) (k : Str) :
    getKey (delKey m k) k = none := by
  rw [delKey]
  induction m with
  | nil => rfl
  | cons e rest ih =>
    obtain ⟨k', v⟩ := e
    rw [List.filter_cons]
    by_cases h : k' = k
    · rw [if_neg (by simp [h])]
      exact ih
    · rw [if_pos (by simp [h]), getKey_cons, if_neg h]
      exact ih

theorem getKey_delKey_ne {α : Type} (m : List (Str × α)) (k q : Str) (h : q ≠ k) :
    getKey (delKey m k) q = getKey m q := by
  rw [delKey]
  induction m with
  | nil => rfl
  | cons e rest ih =>
    obtain ⟨k', v⟩ := e
    rw [List.filter_cons]
    by_cases hk : k' = k
    · rw [if_neg (by simp [hk])]
      rw [getKey_cons, if_neg (by rw [hk]; exact fun hq => h hq.symm)]
      exact ih
    · rw [if_pos (by simp [hk]), getKey_cons, getKey_cons]
      by_cases hq : k' = q
      · rw [if_pos hq, if_pos hq]
      · rw [if_neg hq, if_neg hq]
        exact ih

theorem getKey_map_setvalue {α : Type} (m : List (Str × α)) (k k' : Str) (v : α) :
    getKey (m.map (fun e => if e.1 = k then (e.1, v) else e)) k' =
      (getKey m k').map (fun w => if k' = k then v else w) := by
  induction m with
  | nil => simp
  | cons e rest ih =>
    obtain ⟨ke, ve⟩ := e
    by_cases hek : ke = k
    · subst hek
      by_cases hkk : ke = k'
      · subst hkk
        simp
      · simp [hkk, Ne.symm hkk, ih]
    · by_cases hkk : ke = k'
      · subst hkk
        simp [hek, ih]
      · simp [hek, hkk, ih]

/-- A project document holding the folder `/a`, its subfolder `/a/b` and the
file `/a/f` under it. -/
def c6doc : ProjectDocument :=
  { files := [("/a/f".data, ⟨"/a/f".data, "x".data, [], 0, 0⟩)],
    folders := [("/a".data, ⟨"/a".data, "a".data, ["/a/b".data, "/a/f".data]⟩),
      ("/a/b".data, ⟨"/a/b".data, "b".data, []⟩)],
    root_path := [], name := [], created_at := 0, modified_at := 0,
    version := 1, automerge := true }

/-- C6 — the claim as stated is false: `deleteFolder` removes only the
folder's own entry. In the document `c6doc`, deleting `/a` leaves both the
subfolder `/a/b` and the file `/a/f` in place. -/
theorem C6_descendants_counterexample :
    ¬(getKey (DocumentManager.deleteFolder c6doc 5 "/a".data).folders "/a/b".data = none ∧
      getKey (DocumentManager.deleteFolder c6doc 5 "/a".data).files "/a/f".data = none) := by
  decide

/-- C6 (amended) — `deleteFolder p` deletes exactly the folder entry at `p`
in a single change: `p` is gone, every other folder lookup is unchanged,
the files map and the remaining document fields are untouched, and only
`modified_at` advances. Descendant files and folders are not removed. -/
theorem C6_amended_deleteFolder (doc : ProjectDocument) (now : Nat) (path : Str) :
    getKey (DocumentManager.deleteFolder doc now path).folders path = none ∧
    (∀ q, q ≠ path →
      getKey (DocumentManager.deleteFolder doc now path).folders q = getKey doc.folders q) ∧
    (DocumentManager.deleteFolder doc now path).files = doc.files ∧
    (DocumentManager.deleteFolder doc now path).modified_at = now ∧
    (DocumentManager.deleteFolder doc now path).root_path = doc.root_path ∧
    (DocumentManager.deleteFolder doc now path).name = doc.name ∧
    (DocumentManager.deleteFolder doc now path).created_at = doc.created_at ∧
    (DocumentManager.deleteFolder doc now path).version = doc.version := by
  refine ⟨getKey_delKey_self _ _, fun q hq => getKey_delKey_ne _ _ _ hq, rfl, rfl, rfl, rfl, rfl, rfl⟩

/-- 101 chat messages: timestamps 0..99 followed by a final message whose
timestamp 0 is out of order. -/
def c7msgs : List Store.ChatMessage :=
  (List.range 100).map (fun i => ⟨[], [], [], [], i⟩) ++ [⟨[], [], [], [], 0⟩]

/-- C7 — the claim as stated is false: the ring keeps 100 entries, not
200. After appending the 101 messages of `c7msgs` the store holds 100
entries, not `min 101 200 = 101`, and since the last arrival has an
out-of-order timestamp the kept entries are not sorted by timestamp
either. -/
theorem C7_ring_counterexample :
    ¬((List.foldl Store.addChatMessage [] c7msgs).length = min c7msgs.length 200) ∧
    ¬(List.foldl Store.addChatMessage [] c7msgs).Pairwise
      (fun a b => a.timestamp ≤ b.timestamp) := by
  have hfold := addChatMessage_foldl [] c7msgs (by simp)
  rw [List.nil_append] at hfold
  constructor
  · intro hcl
    rw [hfold, Store.lastN, List.length_drop] at hcl
    have hlen : c7msgs.length = 101 := by decide
    rw [hlen] at hcl
    omega
  · rw [hfold]
    decide

/-- C7 (amended) — after any sequence of appended chat messages the stored
list is exactly the most recent `min (total, 100)` entries in arrival
order; its length never exceeds 100. Ordering by `server_timestamp` holds
only when the messages arrive in non-decreasing timestamp order. -/
theorem C7_amended_chat_ring (ms : List Store.ChatMessage) :
    List.foldl Store.addChatMessage [] ms = ms.drop (ms.length - 100) ∧
    (List.foldl Store.addChatMessage [] ms).length ≤ 100 := by
  have hfold := addChatMessage_foldl [] ms (by simp)
  rw [List.nil_append] at hfold
  refine ⟨hfold, ?_⟩
  rw [hfold]
  exact lastN_length_le _ _

/-- C9 — text edits on a missing file are no-ops: when `path` is absent
`spliceText` (and its `insertText` / `deleteText` / `replaceText`
delegates) returns the document unchanged; when the file exists the new
content is the old prefix before `startIndex`, the insertion, and the old
content from `startIndex + deleteCount` on, other files untouched. -/
theorem C9_spliceText_behavior (doc : ProjectDocument) (now : Nat) (path : Str)
    (startIndex deleteCount : Nat) (insertText : Str) :
    (getKey doc.files path = none →
      DocumentManager.spliceText doc now path startIndex deleteCount insertText = doc) ∧
    (∀ f, getKey doc.files path = some f →
      DocumentManager.getFileContent
          (DocumentManager.spliceText doc now path startIndex deleteCount insertText) path =
        some (f.content.take startIndex ++ insertText ++
          f.content.drop (startIndex + deleteCount)) ∧
      (∀ q, q ≠ path →
        getKey (DocumentManager.spliceText doc now path startIndex deleteCount
          insertText).files q = getKey doc.files q) ∧
      (DocumentManager.spliceText doc now path startIndex deleteCount
        insertText).modified_at = now) ∧
    DocumentManager.insertText doc now path startIndex insertText =
      DocumentManager.spliceText doc now path startIndex 0 insertText ∧
    DocumentManager.deleteText doc now path startIndex deleteCount =
      DocumentManager.spliceText doc now path startIndex deleteCount [] ∧
    DocumentManager.replaceText doc now path startIndex deleteCount insertText =
      DocumentManager.spliceText doc now path startIndex deleteCount insertText := by
  refine ⟨?_, ?_, rfl, rfl, rfl⟩
  · intro hnone
    rw [DocumentManager.spliceText, hnone]
  · intro f hsome
    rw [DocumentManager.spliceText, hsome]
    refine ⟨?_, ?_, rfl⟩
    · rw [DocumentManager.getFileContent]
      simp only [getKey_map_setvalue, hsome]
      simp
    · intro q hq
      simp only [getKey_map_setvalue]
      cases hg : getKey doc.files q <;> simp [hq]

/-- C9 witness. -/
theorem C9_spliceText_witness :
    (getKey (DocumentManager.createEmptyDocument 0).files "a".data = none →
      DocumentManager.spliceText (DocumentManager.createEmptyDocument 0) 3 "a".data 0 0
        "x".data = DocumentManager.createEmptyDocument 0) ∧
    DocumentManager.spliceText (DocumentManager.createEmptyDocument 0) 3 "a".data 0 0
        "x".data = DocumentManager.createEmptyDocument 0 :=
  ⟨(C9_spliceText_behavior (DocumentManager.createEmptyDocument 0) 3 "a".data 0 0
      "x".data).1,
   (C9_spliceText_behavior (DocumentManager.createEmptyDocument 0) 3 "a".data 0 0
      "x".data).1 (by decide)⟩

/-- C10 — the remote-cursor table is keyed by peer id alone: a processed
`CursorBroadcast` stores the sender's cursor under its peer id, replacing
any previous cursor even for a different file; all other peers' entries
are untouched, and key distinctness (at most one cursor per peer) is
preserved. -/
theorem C10_cursor_table (own : Option Str) (cursors : List (Str × Store.CursorPosition))
    (msg : Store.CursorBroadcast) :
    ((cursors.map Prod.fst).Nodup →
      ((Store.handleCursorBroadcast own cursors msg).map Prod.fst).Nodup) ∧
    (some msg.peer_id ≠ own →
      getKey (Store.handleCursorBroadcast own cursors msg) msg.peer_id =
        some { fileId := msg.file_path, line := msg.line, column := msg.column } ∧
      ∀ p, p ≠ msg.peer_id →
        getKey (Store.handleCursorBroadcast own cursors msg) p = getKey cursors p) := by
  constructor
  · intro hnd
    rw [Store.handleCursorBroadcast]
    by_cases hown : some msg.peer_id = own
    · rw [if_pos hown]
      exact hnd
    · rw [if_neg hown]
      exact mapSet_nodup_keys _ _ _ hnd
  · intro hown
    rw [Store.handleCursorBroadcast, if_neg hown]
    constructor
    · rw [Store.updateCursor, getKey_mapSet]
      simp
    · intro p hp
      rw [Store.updateCursor, getKey_mapSet]
      simp [Ne.symm hp]

/-- C10 witness: a second broadcast from the same peer in a different file
replaces the stored cursor. -/
theorem C10_cursor_table_witness :
    getKey (Store.handleCursorBroadcast none
        [("p1".data, { fileId := "a".data, line := 1, column := 1 })]
        { peer_id := "p1".data, peer_name := [], peer_color := [],
          file_path := "b".data, line := 2, column := 3 }) "p1".data =
      some { fileId := "b".data, line := 2, column := 3 } :=
  ((C10_cursor_table none
      [("p1".data, { fileId := "a".data, line := 1, column := 1 })]
      { peer_id := "p1".data, peer_name := [], peer_color := [],
        file_path := "b".data, line := 2, column := 3 }).2 (by decide)).1

theorem getKey_spreadUnion_absorb {α : Type} (base other : List (Str × α)) (k : Str) :
    getKey (spreadUnion base (spreadUnion other base)) k =
      getKey (spreadUnion other base) k := by
  simp only [getKey_spreadUnion]
  cases hb : getKey base k <;> cases ho : getKey other k <;> simp

theorem getKey_spreadUnion_comm {α : Type} (base m1 m2 : List (Str × α)) (k : Str)
    (h : ∀ v1 v2, getKey m1 k = some v1 → getKey m2 k = some v2 → v1 = v2) :
    getKey (spreadUnion (spreadUnion base m1) m2) k =
      getKey (spreadUnion (spreadUnion base m2) m1) k := by
  simp only [getKey_spreadUnion]
  cases h1 : getKey m1 k with
  | none => cases h2 : getKey m2 k <;> simp
  | some v1 =>
    cases h2 : getKey m2 k with
    | none => simp
    | some v2 =>
      simp only []
      exact congrArg some (h v1 v2 h1 h2).symm

/-- C1 — the claim as stated is false: two replicas can reach a state
where exchanging sync messages changes neither of them (convergence), yet
their `saveToBinary` outputs differ, because `merge` never touches the
metadata fields (`created_at`, and each side keeps its own `modified_at`
clock value). Empty documents created at times 1 and 2 are such a pair. -/
theorem C1_save_counterexample :
    DocumentManager.receiveSyncMessage (DocumentManager.createEmptyDocument 1) 1 []
        (DocumentManager.generateSyncMessage [] (DocumentManager.createEmptyDocument 2)) =
      DocumentManager.createEmptyDocument 1 ∧
    DocumentManager.receiveSyncMessage (DocumentManager.createEmptyDocument 2) 2 []
        (DocumentManager.generateSyncMessage [] (DocumentManager.createEmptyDocument 1)) =
      DocumentManager.createEmptyDocument 2 ∧
    DocumentManager.saveToBinary (DocumentManager.createEmptyDocument 1) ≠
      DocumentManager.saveToBinary (DocumentManager.createEmptyDocument 2) := by
  refine ⟨?_, ?_, ?_⟩
  · rw [DocumentManager.generateSyncMessage, receiveSyncMessage_save]
    decide
  · rw [DocumentManager.generateSyncMessage, receiveSyncMessage_save]
    decide
  · intro h
    have h1 := loadFromBinary_save 0 (DocumentManager.createEmptyDocument 1)
    have h2 := loadFromBinary_save 0 (DocumentManager.createEmptyDocument 2)
    rw [h] at h1
    exact absurd (congrArg ProjectDocument.created_at (h1.symm.trans h2)) (by decide)

/-- C1 (amended) — after one alternating exchange (B merges A's sync
message, then A merges B's reply) the two replicas agree on the observable
CRDT content: their `files` and `folders` maps give equal lookups at every
key. The serialized saves can still differ, since metadata and the
`modified_at` clocks are not merged and key order may differ. -/
theorem C1_amended_lookup_convergence (A B : ProjectDocument) (tB tA : Nat) (pA pB : Str) :
    (∀ k, getKey (DocumentManager.receiveSyncMessage A tA pB
        (DocumentManager.generateSyncMessage pA
          (DocumentManager.receiveSyncMessage B tB pA
            (DocumentManager.generateSyncMessage pB A)))).files k =
      getKey (DocumentManager.receiveSyncMessage B tB pA
        (DocumentManager.generateSyncMessage pB A)).files k) ∧
    (∀ k, getKey (DocumentManager.receiveSyncMessage A tA pB
        (DocumentManager.generateSyncMessage pA
          (DocumentManager.receiveSyncMessage B tB pA
            (DocumentManager.generateSyncMessage pB A)))).folders k =
      getKey (DocumentManager.receiveSyncMessage B tB pA
        (DocumentManager.generateSyncMessage pB A)).folders k) := by
  have hB : DocumentManager.receiveSyncMessage B tB pA
      (DocumentManager.generateSyncMessage pB A) = DocumentManager.merge B A tB := by
    rw [DocumentManager.generateSyncMessage, receiveSyncMessage_save]
  rw [hB, DocumentManager.generateSyncMessage, receiveSyncMessage_save]
  constructor
  · intro k
    exact getKey_spreadUnion_absorb A.files B.files k
  · intro k
    exact getKey_spreadUnion_absorb A.folders B.folders k

/-- A document holding the single file `/f` with content `x`. -/
def c2doc1 : ProjectDocument :=
  { files := [("/f".data, ⟨"/f".data, "x".data, [], 0, 0⟩)], folders := [],
    root_path := [], name := [], created_at := 0, modified_at := 0,
    version := 1, automerge := true }

/-- A document holding the single file `/f` with content `y`. -/
def c2doc2 : ProjectDocument :=
  { files := [("/f".data, ⟨"/f".data, "y".data, [], 0, 0⟩)], folders := [],
    root_path := [], name := [], created_at := 0, modified_at := 0,
    version := 1, automerge := true }

/-- C2 — the claim as stated is false: `receiveSyncMessage` merges by
object spread, so on a conflicting key the payload received last wins and
the two application orders give different file contents. -/
theorem C2_order_counterexample :
    DocumentManager.receiveSyncMessage
        (DocumentManager.receiveSyncMessage (DocumentManager.createEmptyDocument 0) 1 []
          (DocumentManager.saveToBinary c2doc1)) 2 []
        (DocumentManager.saveToBinary c2doc2) ≠
      DocumentManager.receiveSyncMessage
        (DocumentManager.receiveSyncMessage (DocumentManager.createEmptyDocument 0) 1 []
          (DocumentManager.saveToBinary c2doc2)) 2 []
        (DocumentManager.saveToBinary c2doc1) := by
  rw [receiveSyncMessage_save, receiveSyncMessage_save, receiveSyncMessage_save,
    receiveSyncMessage_save]
  decide

/-- C2 (amended) — receiving two sync payloads commutes up to observable
content when the remote documents do not conflict: if the two payloads'
documents agree on every file and folder key they share, then either order
of `receiveSyncMessage` yields the same lookups in `files` and `folders`
and the same remaining fields (the non-map fields come from the local
document, and `modified_at` is the time of the second receive). -/
theorem C2_amended_commutes_without_conflict (d d1 d2 : ProjectDocument)
    (t1 t2 : Nat) (p : Str)
    (hfiles : ∀ k v1 v2, getKey d1.files k = some v1 → getKey d2.files k = some v2 →
      v1 = v2)
    (hfolders : ∀ k v1 v2, getKey d1.folders k = some v1 →
      getKey d2.folders k = some v2 → v1 = v2) :
    (∀ k, getKey (DocumentManager.receiveSyncMessage
        (DocumentManager.receiveSyncMessage d t1 p (DocumentManager.saveToBinary d1))
        t2 p (DocumentManager.saveToBinary d2)).files k =
      getKey (DocumentManager.receiveSyncMessage
        (DocumentManager.receiveSyncMessage d t1 p (DocumentManager.saveToBinary d2))
        t2 p (DocumentManager.saveToBinary d1)).files k) ∧
    (∀ k, getKey (DocumentManager.receiveSyncMessage
        (DocumentManager.receiveSyncMessage d t1 p (DocumentManager.saveToBinary d1))
        t2 p (DocumentManager.saveToBinary d2)).folders k =
      getKey (DocumentManager.receiveSyncMessage
        (DocumentManager.receiveSyncMessage d t1 p (DocumentManager.saveToBinary d2))
        t2 p (DocumentManager.saveToBinary d1)).folders k) ∧
    (DocumentManager.receiveSyncMessage
        (DocumentManager.receiveSyncMessage d t1 p (DocumentManager.saveToBinary d1))
        t2 p (DocumentManager.saveToBinary d2)).root_path = d.root_path ∧
    (DocumentManager.receiveSyncMessage
        (DocumentManager.receiveSyncMessage d t1 p (DocumentManager.saveToBinary d1))
        t2 p (DocumentManager.saveToBinary d2)).name = d.name ∧
    (DocumentManager.receiveSyncMessage
        (DocumentManager.receiveSyncMessage d t1 p (DocumentManager.saveToBinary d1))
        t2 p (DocumentManager.saveToBinary d2)).created_at = d.created_at ∧
    (DocumentManager.receiveSyncMessage
        (DocumentManager.receiveSyncMessage d t1 p (DocumentManager.saveToBinary d1))
        t2 p (DocumentManager.saveToBinary d2)).modified_at = t2 ∧
    (DocumentManager.receiveSyncMessage
        (DocumentManager.receiveSyncMessage d t1 p (DocumentManager.saveToBinary d2))
        t2 p (DocumentManager.saveToBinary d1)).modified_at = t2 := by
  rw [receiveSyncMessage_save, receiveSyncMessage_save, receiveSyncMessage_save,
    receiveSyncMessage_save]
  refine ⟨?_, ?_, rfl, rfl, rfl, rfl, rfl⟩
  · intro k
    exact getKey_spreadUnion_comm d.files d1.files d2.files k (hfiles k)
  · intro k
    exact getKey_spreadUnion_comm d.folders d1.folders d2.folders k (hfolders k)

/-- C2 witness: with the identical payload received twice there is no
conflict and the two orders agree. -/
theorem C2_amended_witness :
    (∀ k, getKey (DocumentManager.receiveSyncMessage
        (DocumentManager.receiveSyncMessage (DocumentManager.createEmptyDocument 0) 1 []
          (DocumentManager.saveToBinary c2doc1))
        2 [] (DocumentManager.saveToBinary c2doc1)).files k =
      getKey (DocumentManager.receiveSyncMessage
        (DocumentManager.receiveSyncMessage (DocumentManager.createEmptyDocument 0) 1 []
          (DocumentManager.saveToBinary c2doc1))
        2 [] (DocumentManager.saveToBinary c2doc1)).files k) ∧
    (∀ k, getKey (DocumentManager.receiveSyncMessage
        (DocumentManager.receiveSyncMessage (DocumentManager.createEmptyDocument 0) 1 []
          (DocumentManager.saveToBinary c2doc1))
        2 [] (DocumentManager.saveToBinary c2doc1)).folders k =
      getKey (DocumentManager.receiveSyncMessage
        (DocumentManager.receiveSyncMessage (DocumentManager.createEmptyDocument 0) 1 []
          (DocumentManager.saveToBinary c2doc1))
        2 [] (DocumentManager.saveToBinary c2doc1)).folders k) ∧
    (DocumentManager.receiveSyncMessage
        (DocumentManager.receiveSyncMessage (DocumentManager.createEmptyDocument 0) 1 []
          (DocumentManager.saveToBinary c2doc1))
        2 [] (DocumentManager.saveToBinary c2doc1)).root_path =
      (DocumentManager.createEmptyDocument 0).root_path ∧
    (DocumentManager.receiveSyncMessage
        (DocumentManager.receiveSyncMessage (DocumentManager.createEmptyDocument 0) 1 []
          (DocumentManager.saveToBinary c2doc1))
        2 [] (DocumentManager.saveToBinary c2doc1)).name =
      (DocumentManager.createEmptyDocument 0).name ∧
    (DocumentManager.receiveSyncMessage
        (DocumentManager.receiveSyncMessage (DocumentManager.createEmptyDocument 0) 1 []
          (DocumentManager.saveToBinary c2doc1))
        2 [] (DocumentManager.saveToBinary c2doc1)).created_at =
      (DocumentManager.createEmptyDocument 0).created_at ∧
    (DocumentManager.receiveSyncMessage
        (DocumentManager.receiveSyncMessage (DocumentManager.createEmptyDocument 0) 1 []
          (DocumentManager.saveToBinary c2doc1))
        2 [] (DocumentManager.saveToBinary c2doc1)).modified_at = 2 ∧
    (DocumentManager.receiveSyncMessage
        (DocumentManager.receiveSyncMessage (DocumentManager.createEmptyDocument 0) 1 []
          (DocumentManager.saveToBinary c2doc1))
        2 [] (DocumentManager.saveToBinary c2doc1)).modified_at = 2 :=
  C2_amended_commutes_without_conflict (DocumentManager.createEmptyDocument 0)
    c2doc1 c2doc1 1 2 []
    (fun _ v1 v2 h1 h2 => by rw [h1] at h2; exact Option.some.inj h2)
    (fun _ v1 v2 h1 h2 => by rw [h1] at h2; exact Option.some.inj h2)

/-- C8 — `loadFromBinary ∘ saveToBinary` restores the document exactly
(for the documents the manager actually produces, which carry
`__automerge = true`): all files, folders and metadata are preserved, and
the reloaded document generates the same sync message for any fresh peer. -/
theorem C8_load_save_roundtrip (d : ProjectDocument) (now : Nat) (p : Str)
    (h : d.automerge = true) :
    DocumentManager.loadFromBinary now (DocumentManager.saveToBinary d) = d ∧
    DocumentManager.generateSyncMessage p
        (DocumentManager.loadFromBinary now (DocumentManager.saveToBinary d)) =
      DocumentManager.generateSyncMessage p d := by
  have hl := loadFromBinary_save now d
  have hd : ({ d with automerge := true } : ProjectDocument) = d := by
    cases d with
    | mk files folders root_path name created_at modified_at version automerge =>
      simp only [] at h ⊢
      rw [h]
  rw [hl, hd]
  exact ⟨rfl, rfl⟩

/-- C8 witness. -/
theorem C8_load_save_witness :
    DocumentManager.loadFromBinary 5
        (DocumentManager.saveToBinary (DocumentManager.createEmptyDocument 0)) =
      DocumentManager.createEmptyDocument 0 ∧
    DocumentManager.generateSyncMessage []
        (DocumentManager.loadFromBinary 5
          (DocumentManager.saveToBinary (DocumentManager.createEmptyDocument 0))) =
      DocumentManager.generateSyncMessage [] (DocumentManager.createEmptyDocument 0) :=
  C8_load_save_roundtrip (DocumentManager.createEmptyDocument 0) 5 [] rfl

/-- C3 — decode ∘ encode is the identity on well-formed messages in both
directions: every frame `SyncProtocol.encodeClient` produces is decoded
back to the same message by the (spec-modelled) server decoder, and every
frame the (spec-modelled) server encoder produces is decoded back to the
same message by `SyncProtocol.decodeServer`, covering all 14 client and
18 server variants. -/
theorem C3_decode_encode_roundtrip :
    (∀ (m : Proto.ClientMessage) (frame : List Nat), Proto.wfClient m →
      Proto.encodeClient m = some frame →
        Proto.decodeClientFrame frame = Except.ok m) ∧
    (∀ (m : Proto.ServerMessage) (frame : List Nat), Proto.wfServer m →
      Proto.encodeServerFrame m = some frame →
        Proto.decodeServer frame = Except.ok m) :=
  ⟨fun m frame hwf henc => Proto.decodeClientFrame_encodeClient m frame hwf henc,
   fun m frame hwf henc => Proto.decodeServer_encodeServerFrame m frame hwf henc⟩

/-- C3 witness. -/
theorem C3_roundtrip_witness :
    Proto.decodeClientFrame ((Proto.encodeClient (Proto.ClientMessage.ping 42)).getD []) =
      Except.ok (Proto.ClientMessage.ping 42) ∧
    Proto.decodeServer ((Proto.encodeServerFrame (Proto.ServerMessage.pong 1 2)).getD []) =
      Except.ok (Proto.ServerMessage.pong 1 2) :=
  ⟨C3_decode_encode_roundtrip.1 (Proto.ClientMessage.ping 42) _
      (by show (42:Nat) < 18446744073709551616; omega) rfl,
   C3_decode_encode_roundtrip.2 (Proto.ServerMessage.pong 1 2) _
      (by show (1:Nat) < 18446744073709551616 ∧ (2:Nat) < 18446744073709551616; omega) rfl⟩

/-- C5 — every frame `SyncProtocol.encodeClient` yields is exactly
`[0x01][type:u8][len:u24 big-endian][payload]` with the u24 length field
recomputing to the payload's byte length, which is at most
`MAX_MESSAGE_SIZE − 5`; encoding fails whenever the payload exceeds that
bound. -/
theorem C5_frame_layout (m : Proto.ClientMessage) (frame : List Nat) :
    (Proto.encodeClient m = some frame →
      frame = 1 :: Proto.getClientMessageType m ::
          ((Proto.encodeClientPayload m).length / 65536 % 256) ::
          ((Proto.encodeClientPayload m).length / 256 % 256) ::
          ((Proto.encodeClientPayload m).length % 256) ::
          Proto.encodeClientPayload m ∧
      Proto.declaredLen frame = (Proto.encodeClientPayload m).length ∧
      (Proto.encodeClientPayload m).length ≤ Proto.MAX_MESSAGE_SIZE - 5) ∧
    ((Proto.encodeClientPayload m).length + 5 > Proto.MAX_MESSAGE_SIZE →
      Proto.encodeClient m = none) := by
  constructor
  · intro henc
    rw [Proto.encodeClient] at henc
    by_cases hlen : (Proto.encodeClientPayload m).length + 5 > Proto.MAX_MESSAGE_SIZE
    · rw [if_pos hlen] at henc
      exact Option.noConfusion henc
    · rw [if_neg hlen] at henc
      rw [Proto.MAX_MESSAGE_SIZE] at hlen
      have hframe := (Option.some.inj henc).symm
      subst hframe
      have hp : (Proto.encodeClientPayload m).length < 16777216 := by omega
      refine ⟨rfl, ?_, ?_⟩
      · exact Proto.u24_self hp
      · rw [Proto.MAX_MESSAGE_SIZE]
        omega
  · intro hbig
    rw [Proto.encodeClient, if_pos hbig]

/-- C5 witness. -/
theorem C5_frame_layout_witness :
    (Proto.encodeClient (Proto.ClientMessage.ping 42)).getD [] =
      1 :: Proto.getClientMessageType (Proto.ClientMessage.ping 42) ::
        ((Proto.encodeClientPayload (Proto.ClientMessage.ping 42)).length / 65536 % 256) ::
        ((Proto.encodeClientPayload (Proto.ClientMessage.ping 42)).length / 256 % 256) ::
        ((Proto.encodeClientPayload (Proto.ClientMessage.ping 42)).length % 256) ::
        Proto.encodeClientPayload (Proto.ClientMessage.ping 42) ∧
    Proto.declaredLen ((Proto.encodeClient (Proto.ClientMessage.ping 42)).getD []) =
      (Proto.encodeClientPayload (Proto.ClientMessage.ping 42)).length ∧
    (Proto.encodeClientPayload (Proto.ClientMessage.ping 42)).length ≤
      Proto.MAX_MESSAGE_SIZE - 5 :=
  (C5_frame_layout (Proto.ClientMessage.ping 42)
    ((Proto.encodeClient (Proto.ClientMessage.ping 42)).getD [])).1 rfl

/-- The bincode payload of a `SyncComplete` whose project-id string is
16777203 bytes of `a`: variant tag 8 (u32 LE), string length (u64 LE),
then the bytes. Total length 16777215 bytes. -/
def c4payload : List Nat :=
  8 :: 0 :: 0 :: 0 :: 243 :: 255 :: 255 :: 0 :: 0 :: 0 :: 0 :: 0 ::
    List.replicate 16777203 97

/-- A frame declaring the maximal u24 payload length 16777215, which
exceeds `MAX_PAYLOAD = MAX_MESSAGE_SIZE − 5 = 16777211`. -/
def c4frame : List Nat := 1 :: 18 :: 255 :: 255 :: 255 :: c4payload

theorem c4payload_eq :
    c4payload = Proto.encodeServerPayload
      (Proto.ServerMessage.syncComplete (List.replicate 16777203 97)) ++ [] := by
  rw [Proto.encodeServerPayload, Proto.strBytes, List.length_replicate]
  rw [show Proto.variantBytes 8 = [8, 0, 0, 0] by rfl]
  rw [show Proto.u64Bytes 16777203 = [243, 255, 255, 0, 0, 0, 0, 0] by rfl]
  rw [c4payload.eq_def, List.append_nil]
  rfl

theorem c4payload_length : c4payload.length = 16777215 := by
  rw [c4payload.eq_def]
  rw [List.length_cons, List.length_cons, List.length_cons, List.length_cons,
    List.length_cons, List.length_cons, List.length_cons, List.length_cons,
    List.length_cons, List.length_cons, List.length_cons, List.length_cons,
    List.length_replicate]

/-- C4 — the claim as stated is false: `SyncProtocol.decodeServer`
validates the version byte and the available byte count but never checks
the declared payload length against a maximum, so `c4frame`, whose u24
length field 16777215 exceeds `MAX_MESSAGE_SIZE − 5 = 16777211`, is
decoded successfully and would be passed to a message handler. -/
theorem C4_oversize_counterexample :
    Proto.declaredLen c4frame = 16777215 ∧
    Proto.MAX_MESSAGE_SIZE - 5 < 16777215 ∧
    Proto.decodeServer c4frame =
      Except.ok (Proto.ServerMessage.syncComplete (List.replicate 16777203 97)) := by
  refine ⟨by decide, by decide, ?_⟩
  have hdec : Proto.decodeServerPayload c4payload =
      some (Proto.ServerMessage.syncComplete (List.replicate 16777203 97)) := by
    rw [c4payload_eq]
    exact Proto.decodeServerPayload_round _ []
      (by show (List.replicate 16777203 (97:Nat)).length < 18446744073709551616
          rw [List.length_replicate]; omega)
  show Proto.decodeServer (1 :: 18 :: 255 :: 255 :: 255 :: c4payload) = _
  rw [Proto.decodeServer]
  rw [if_neg (show ¬(1:Nat) ≠ 1 by omega)]
  rw [if_neg (by rw [c4payload_length]; omega)]
  rw [List.take_of_length_le (by rw [c4payload_length])]
  rw [hdec]

/-- C4 (amended) — what `decodeServer` actually validates: frames shorter
than 5 bytes fail `tooShort`; a version byte other than 1 fails
`versionMismatch`; fewer available bytes than the declared u24 length
fails `shortRead`; otherwise exactly the declared number of payload bytes
is decoded, with NO check of the declared length against
`MAX_MESSAGE_SIZE`, so oversized frames reach the payload decoder. -/
theorem C4_amended_frame_decoder :
    (∀ (v t a b c : Nat) (rest : List Nat), v ≠ 1 →
      Proto.decodeServer (v :: t :: a :: b :: c :: rest) =
        Except.error (Proto.DecodeErr.versionMismatch v)) ∧
    (∀ (t a b c : Nat) (rest : List Nat), rest.length < a * 65536 + b * 256 + c →
      Proto.decodeServer (1 :: t :: a :: b :: c :: rest) =
        Except.error (Proto.DecodeErr.shortRead (5 + (a * 65536 + b * 256 + c))
          (5 + rest.length))) ∧
    (∀ (t a b c : Nat) (rest : List Nat), ¬rest.length < a * 65536 + b * 256 + c →
      Proto.decodeServer (1 :: t :: a :: b :: c :: rest) =
        (match Proto.decodeServerPayload (rest.take (a * 65536 + b * 256 + c)) with
          | some msg => Except.ok msg
          | none => Except.error Proto.DecodeErr.payloadError)) ∧
    (∀ (bytes : List Nat), bytes.length < 5 →
      Proto.decodeServer bytes = Except.error Proto.DecodeErr.tooShort) := by
  refine ⟨?_, ?_, ?_, ?_⟩
  · intro v t a b c rest hv
    rw [Proto.decodeServer, if_pos hv]
  · intro t a b c rest hlt
    rw [Proto.decodeServer]
    rw [if_neg (show ¬(1:Nat) ≠ 1 by omega)]
    rw [if_pos hlt]
  · intro t a b c rest hge
    rw [Proto.decodeServer]
    rw [if_neg (show ¬(1:Nat) ≠ 1 by omega)]
    rw [if_neg hge]
  · intro bytes hlt
    match bytes with
    | [] => rfl
    | [_] => rfl
    | [_, _] => rfl
    | [_, _, _] => rfl
    | [_, _, _, _] => rfl
    | _ :: _ :: _ :: _ :: _ :: rest =>
      simp only [List.length_cons] at hlt
      omega

/-- C4 (amended) witness. -/
theorem C4_amended_witness :
    Proto.decodeServer (2 :: 0 :: 0 :: 0 :: 0 :: ([] : List Nat)) =
      Except.error (Proto.DecodeErr.versionMismatch 2) ∧
    Proto.decodeServer (1 :: 0 :: 0 :: 0 :: 1 :: ([] : List Nat)) =
      Except.error (Proto.DecodeErr.shortRead (5 + (0 * 65536 + 0 * 256 + 1))
        (5 + ([] : List Nat).length)) ∧
    Proto.decodeServer (1 :: 16 :: 0 :: 0 :: 0 :: ([] : List Nat)) =
      (match Proto.decodeServerPayload (([] : List Nat).take (0 * 65536 + 0 * 256 + 0)) with
        | some msg => Except.ok msg
        | none => Except.error Proto.DecodeErr.payloadError) ∧
    Proto.decodeServer [1, 0] = Except.error Proto.DecodeErr.tooShort :=
  ⟨C4_amended_frame_decoder.1 2 0 0 0 0 [] (by decide),
   C4_amended_frame_decoder.2.1 0 0 0 1 [] (by decide),
   C4_amended_frame_decoder.2.2.1 16 0 0 0 [] (by decide),
   C4_amended_frame_decoder.2.2.2 [1, 0] (by decide)⟩

/-- C6 (amended) witness. -/
theorem C6_amended_witness :
    getKey (DocumentManager.deleteFolder c6doc 5 "/a".data).folders "/a".data = none ∧
    getKey (DocumentManager.deleteFolder c6doc 5 "/a".data).folders "/a/b".data =
      getKey c6doc.folders "/a/b".data ∧
    (DocumentManager.deleteFolder c6doc 5 "/a".data).files = c6doc.files ∧
    (DocumentManager.deleteFolder c6doc 5 "/a".data).modified_at = 5 :=
  ⟨(C6_amended_deleteFolder c6doc 5 "/a".data).1,
   (C6_amended_deleteFolder c6doc 5 "/a".data).2.1 "/a/b".data (by decide),
   (C6_amended_deleteFolder c6doc 5 "/a".data).2.2.1,
   (C6_amended_deleteFolder c6doc 5 "/a".data).2.2.2.1⟩
